import Mathlib

/-!
Verification development for the Segmentation, Matching, and Parallel Batch
Delivery subsystem of the Full-Stack-Lead-Agent repository.

The Lean definitions below are a shallow embedding of the Python sources
`src/execution/add_leads_to_campaigns_segmented.py` and
`src/execution/segment_by_job_title.py`.  File system access is modelled by
explicit `FileContent` values and by a list of (key, content) writes in write
order; the network is modelled by an oracle assigning a response to every
batch request.  Python dictionaries keyed by strings are modelled as
functions `String → _` updated pointwise; Python truthiness of optional
strings is modelled by `pyTruthy`.
-/

namespace LeadAgent

/-- Lead record: a JSON object with optional string fields.  Only the fields
read by the two embedded modules are modelled (`email`/`contact_email` for
delivery, `job_title`/`title` for segmentation); the remaining fields
(first/last name, company, website) only feed the formatted payload, whose
observable effect is its length, equal to the batch length. -/
structure Lead where
  email : Option String := none
  contact_email : Option String := none
  job_title : Option String := none
  title : Option String := none
deriving DecidableEq, Repr

/-- Truthiness of an optional string, as Python sees `lead.get(k)`:
`None` and the empty string are falsy. -/
def pyTruthy : Option String → Bool
  | none => false
  | some s => !s.isEmpty

/-- Python `a or b` on two optional strings: yields `b` when `a` is falsy. -/
def pyOr (a b : Option String) : Option String :=
  if pyTruthy a then a else b

/-- Embedding of `is_valid_email` (add_leads_to_campaigns_segmented.py:28):
false when the value is falsy or contains no `@`, true otherwise. -/
def is_valid_email (email : Option String) : Bool :=
  match email with
  | none => false
  | some s => if s.isEmpty || !(s.toList.contains '@') then false else true

/-- Resolved email of a lead: `lead.get("email") or lead.get("contact_email")`
(add_leads_to_campaigns_segmented.py:132). -/
def resolvedEmail (l : Lead) : Option String :=
  pyOr l.email l.contact_email

/-- Outcome of one HTTP POST of a batch: either a response with a status code
and an optional `leads_uploaded` field in its JSON body, or a raised
`requests.exceptions.RequestException`. -/
inductive Resp where
  | http (status : Nat) (leads_uploaded : Option Nat)
  | exn
deriving DecidableEq, Repr

/-- Result dictionary returned by `upload_single_batch`. -/
structure UploadResult where
  uploaded : Nat
  failed : Nat
deriving DecidableEq, Repr

/-- Embedding of `upload_single_batch` (add_leads_to_campaigns_segmented.py:35):
`formatted_leads` holds one object per lead of the batch, so its length is the
batch length.  On a response with status exactly 200 the result is the body's
`leads_uploaded` field (defaulting to the batch length) with zero failures; on
any other status, or on a transport exception, the whole batch is failed. -/
def upload_single_batch (batch : List Lead) (r : Resp) : UploadResult :=
  let n := batch.length
  match r with
  | .http status lu => if status = 200 then { uploaded := lu.getD n, failed := 0 }
      else { uploaded := 0, failed := n }
  | .exn => { uploaded := 0, failed := n }

/-- Fuel-indexed batching worker: peels `bs` leads per step.  The fuel is
only a structural-recursion device; with `bs ≥ 1` any fuel of at least the
list length gives the true slicing (see chunksGo_congr). -/
def chunksGo (bs : Nat) : Nat → List Lead → List (List Lead)
  | _, [] => []
  | 0, _ :: _ => []
  | fuel + 1, x :: xs => (x :: xs).take bs :: chunksGo bs fuel ((x :: xs).drop bs)

/-- Batching `[valid_leads[i:i+batch_size] for i in range(0, len(valid_leads), batch_size)]`
(add_leads_to_campaigns_segmented.py:148); the caller always passes a
positive batch size (100). -/
def chunks (bs : Nat) (l : List Lead) : List (List Lead) :=
  chunksGo bs l.length l

/-- Result of `add_leads_to_campaign`: either the early-return error
dictionary for a campaign with no valid-email leads (which carries *no*
`uploaded`/`failed` keys), or the full result dictionary. -/
inductive CampaignResult where
  | noValidLeads
  | delivered (total_leads valid_leads uploaded failed : Nat)
deriving DecidableEq, Repr

/-- The `status` field of a campaign result
(add_leads_to_campaigns_segmented.py:141 and :175). -/
def crStatus : CampaignResult → String
  | .noValidLeads => "error"
  | .delivered _ _ _ f => if f = 0 then "success" else "partial"

/-- Python `result.get("uploaded", 0)`: the no-valid-leads dictionary has no
such key, so it yields the default 0. -/
def crUploaded : CampaignResult → Nat
  | .noValidLeads => 0
  | .delivered _ _ u _ => u

/-- Python `result.get("failed", 0)`: the no-valid-leads dictionary has no
such key, so it yields the default 0. -/
def crFailed : CampaignResult → Nat
  | .noValidLeads => 0
  | .delivered _ _ _ f => f

/-- Upload of every batch, each against its own response from the oracle:
the batch at overall position `i` gets response `resp i`. -/
def uploadBatches (resp : Nat → Resp) : Nat → List (List Lead) → List UploadResult
  | _, [] => []
  | i, b :: rest => upload_single_batch b (resp i) :: uploadBatches resp (i + 1) rest

/-- Embedding of `add_leads_to_campaign` (add_leads_to_campaigns_segmented.py:110).
The response oracle `resp` gives the outcome of the batch at each position
(0-based).  The thread pool aggregates per-batch results by summation, which
is order-independent, so the in-order sum models any completion order. -/
def add_leads_to_campaign (leads : List Lead) (resp : Nat → Resp)
    (batch_size : Nat := 100) : CampaignResult :=
  let valid_leads := leads.filter (fun l => is_valid_email (resolvedEmail l))
  if valid_leads.isEmpty then .noValidLeads
  else
    let batches := chunks batch_size valid_leads
    let results := uploadBatches resp 0 batches
    let total_uploaded := (results.map (·.uploaded)).sum
    let total_failed := (results.map (·.failed)).sum
    .delivered leads.length valid_leads.length total_uploaded total_failed

/-- Decides whether `needle` occurs as a contiguous substring of the character
list `hay`, the semantics of the Python `in` operator on strings. -/
def substrAux (needle : List Char) : List Char → Bool
  | [] => needle.isEmpty
  | c :: rest => needle.isPrefixOf (c :: rest) || substrAux needle rest

/-- Python `needle in hay` on strings. -/
def strContains (hay needle : String) : Bool :=
  substrAux needle.toList hay.toList

/-- Segment entry of the segment-mapping file as read by the matcher: only
`segment_id` and `segment_name` are consulted. -/
structure MSeg where
  segment_id : String
  segment_name : String
deriving DecidableEq, Repr

/-- Embedding of `extract_segment_from_campaign_name`
(add_leads_to_campaigns_segmented.py:185): walk the segments in stored order
and return the `segment_id` of the first one whose `segment_name` occurs in
the campaign name; `none` when no segment matches. -/
def extract_segment_from_campaign_name (campaign_name : String) :
    List MSeg → Option String
  | [] => none
  | s :: rest =>
      if strContains campaign_name s.segment_name then some s.segment_id
      else extract_segment_from_campaign_name campaign_name rest

/-- State of a file read: the file may be absent (`FileNotFoundError`), hold
malformed JSON (`json.JSONDecodeError`), or parse to a value. -/
inductive FileContent (α : Type) where
  | missing
  | badJSON
  | ok (v : α)
deriving DecidableEq, Repr

/-- Campaign entry of the campaigns file.  All three fields are read with
`dict.get`, hence optional. -/
structure Campaign where
  campaign_name : Option String := none
  campaign_id : Option String := none
  status : Option String := none
deriving DecidableEq, Repr

/-- Campaigns file body; `campaigns_data.get('campaigns', [])`. -/
structure CampaignsData where
  campaigns : List Campaign
deriving DecidableEq, Repr

/-- Segment-mapping file body; `segment_mapping.get('segments', [])`. -/
structure SegMappingIn where
  segments : List MSeg
deriving DecidableEq, Repr

/-- Per-destination entry appended to the `results` list of the run
(add_leads_to_campaigns_segmented.py:283-351): the two skip shapes, the two
per-destination file errors, or the dictionary returned by
`add_leads_to_campaign`. -/
inductive DestEntry where
  | skippedNoSegment (campaign_name : String)
  | errorMissingFile (campaign_name segment_id : String)
  | errorBadJson (campaign_name segment_id : String)
  | skippedEmpty (campaign_name segment_id : String)
  | uploaded (campaign_name : String) (r : CampaignResult)
deriving DecidableEq, Repr

/-- The `status` field recorded on a per-destination results entry. -/
def deStatus : DestEntry → String
  | .skippedNoSegment _ => "skipped"
  | .errorMissingFile _ _ => "error"
  | .errorBadJson _ _ => "error"
  | .skippedEmpty _ _ => "skipped"
  | .uploaded _ r => crStatus r

/-- Mutable state of the campaign loop: the `results` list and the three
run-level counters. -/
structure RState where
  results : List DestEntry
  total_uploaded : Nat
  total_failed : Nat
  total_skipped : Nat
deriving DecidableEq, Repr

/-- Lead-partition directory: content of `segment_{sid}_leads.json` under the
leads directory, keyed by the segment id `sid` (the filename is determined by
the id, so the id is used as the key). -/
def LeadsDir := String → FileContent (List Lead)

/-- Embedding of one iteration of the campaign loop
(add_leads_to_campaigns_segmented.py:283-355).  The body resolves the
segment, loads its partition file, and either records a skip, records a
per-destination error (incrementing `total_failed` by one), or uploads and
accumulates the result counters. -/
def stepCampaign (mapping : SegMappingIn) (dir : LeadsDir) (resp : Nat → Resp)
    (st : RState) (c : Campaign) : RState :=
  let campaign_name := c.campaign_name.getD "Unknown"
  let sid? := extract_segment_from_campaign_name campaign_name mapping.segments
  if !pyTruthy sid? then
    { st with results := st.results ++ [.skippedNoSegment campaign_name],
              total_skipped := st.total_skipped + 1 }
  else
    let sid := sid?.getD ""
    match dir sid with
    | .missing =>
        { st with results := st.results ++ [.errorMissingFile campaign_name sid],
                  total_failed := st.total_failed + 1 }
    | .badJSON =>
        { st with results := st.results ++ [.errorBadJson campaign_name sid],
                  total_failed := st.total_failed + 1 }
    | .ok segment_leads =>
        if segment_leads.isEmpty then
          { st with results := st.results ++ [.skippedEmpty campaign_name sid],
                    total_skipped := st.total_skipped + 1 }
        else
          let r := add_leads_to_campaign segment_leads resp 100
          { st with results := st.results ++ [.uploaded campaign_name r],
                    total_uploaded := st.total_uploaded + crUploaded r,
                    total_failed := st.total_failed + crFailed r }

/-- The campaign loop over the successful campaigns.  The oracle
`resp : Nat → Nat → Resp` gives, for the campaign at position `i`, the
response of its batch `j` as `resp i j`. -/
def campLoop (mapping : SegMappingIn) (dir : LeadsDir) (resp : Nat → Nat → Resp) :
    Nat → List Campaign → RState → RState
  | _, [], st => st
  | i, c :: rest, st =>
      campLoop mapping dir resp (i + 1) rest (stepCampaign mapping dir (resp i) st c)

/-- The run report written to the output file and returned
(add_leads_to_campaigns_segmented.py:369-392). -/
structure RunReport where
  status : String
  results : List DestEntry
  campaigns_processed : Nat
  total_uploaded : Nat
  total_failed : Nat
  campaigns_skipped : Nat
deriving DecidableEq, Repr

/-- Return value of `add_leads_to_campaigns_segmented`: an early error
dictionary (whose `status` is `"error"`) or the run report. -/
inductive RunResult where
  | err (message : String)
  | report (r : RunReport)
deriving DecidableEq, Repr

/-- Embedding of `add_leads_to_campaigns_segmented`
(add_leads_to_campaigns_segmented.py:212): credential check, the two input
file loads, the check for successful campaigns, the campaign loop, and the
final report whose status is `"success"` exactly when both `total_failed`
and `total_skipped` are zero. -/
def add_leads_to_campaigns_segmented (apiKey : Option String)
    (campaignsFile : FileContent CampaignsData)
    (segmentsFile : FileContent SegMappingIn)
    (dir : LeadsDir) (resp : Nat → Nat → Resp) : RunResult :=
  if !pyTruthy apiKey then .err "INSTANTLY_API_KEY not found in .env file"
  else
    match campaignsFile with
    | .missing => .err "Campaigns file not found"
    | .badJSON => .err "Invalid JSON in campaigns file"
    | .ok campaigns_data =>
        let successful_campaigns :=
          campaigns_data.campaigns.filter (fun c => c.status == some "success")
        if successful_campaigns.isEmpty then
          .err "No successful campaigns found in campaigns file"
        else
          match segmentsFile with
          | .missing => .err "Segment mapping file not found"
          | .badJSON => .err "Invalid JSON in segments file"
          | .ok mapping =>
              let st := campLoop mapping dir resp 0 successful_campaigns ⟨[], 0, 0, 0⟩
              .report
                { status := if st.total_failed = 0 && st.total_skipped = 0
                            then "success" else "partial",
                  results := st.results,
                  campaigns_processed := successful_campaigns.length,
                  total_uploaded := st.total_uploaded,
                  total_failed := st.total_failed,
                  campaigns_skipped := st.total_skipped }

/-- The `status` field of the run result, the single field `main` consults. -/
def runStatus : RunResult → String
  | .err _ => "error"
  | .report r => r.status

/-- Exit code of `main` (add_leads_to_campaigns_segmented.py:428):
`sys.exit(0 if result["status"] == "success" else 1)`. -/
def exitCode (r : RunResult) : Nat :=
  if runStatus r = "success" then 0 else 1

/-- Results list of a run outcome (empty for an early configuration error). -/
def runResults : RunResult → List DestEntry
  | .err _ => []
  | .report r => r.results

/-- Number the per-destination entry contributes to `total_failed`: each of
the two per-destination file errors bumps the counter by exactly one, a
delivered destination contributes its aggregated failed-lead count, the
zero-valid-email error dictionary has no `failed` key and contributes the
`get` default 0, and skips contribute nothing. -/
def failContribution : DestEntry → Nat
  | .errorMissingFile _ _ => 1
  | .errorBadJson _ _ => 1
  | .uploaded _ r => crFailed r
  | _ => 0

/-- Number the per-destination entry contributes to `total_skipped`. -/
def skipContribution : DestEntry → Nat
  | .skippedNoSegment _ => 1
  | .skippedEmpty _ _ => 1
  | _ => 0

/-- Number the per-destination entry contributes to `total_uploaded`. -/
def upContribution : DestEntry → Nat
  | .uploaded _ r => crUploaded r
  | _ => 0

/-- The per-destination entry the loop body records for one campaign; pure
companion of `stepCampaign`. -/
def entryFor (mapping : SegMappingIn) (dir : LeadsDir) (resp : Nat → Resp)
    (c : Campaign) : DestEntry :=
  let campaign_name := c.campaign_name.getD "Unknown"
  let sid? := extract_segment_from_campaign_name campaign_name mapping.segments
  if !pyTruthy sid? then .skippedNoSegment campaign_name
  else
    let sid := sid?.getD ""
    match dir sid with
    | .missing => .errorMissingFile campaign_name sid
    | .badJSON => .errorBadJson campaign_name sid
    | .ok segment_leads =>
        if segment_leads.isEmpty then .skippedEmpty campaign_name sid
        else .uploaded campaign_name (add_leads_to_campaign segment_leads resp 100)

/-- Entries recorded for a list of campaigns starting at oracle index `i`. -/
def entriesFor (mapping : SegMappingIn) (dir : LeadsDir) (resp : Nat → Nat → Resp) :
    Nat → List Campaign → List DestEntry
  | _, [] => []
  | i, c :: rest =>
      entryFor mapping dir (resp i) c :: entriesFor mapping dir resp (i + 1) rest

/-! Segmentation module: embedding of `segment_by_job_title.py`. -/

/-- Segment definition as produced by the clusterer or the fallback
(segment_by_job_title.py): the dictionaries in the `segments` array before the
assigner adds a `lead_count`. -/
structure SegDef where
  segment_id : String
  segment_name : String
  job_titles : List String
  messaging_angle : String
deriving DecidableEq, Repr

/-- Segment entry of the final mapping, after the assigner has attached the
`lead_count` key. -/
structure OutSeg where
  segment_id : String
  segment_name : String
  job_titles : List String
  messaging_angle : String
  lead_count : Nat
deriving DecidableEq, Repr

/-- Attaching `segment['lead_count'] = lead_count`
(segment_by_job_title.py:339). -/
def toOut (s : SegDef) (n : Nat) : OutSeg :=
  { segment_id := s.segment_id, segment_name := s.segment_name,
    job_titles := s.job_titles, messaging_angle := s.messaging_angle,
    lead_count := n }

/-- Python `str.lower()` restricted to ASCII, written structurally over the
character list so that it evaluates inside the kernel. -/
def strLower (s : String) : String := ⟨s.data.map Char.toLower⟩

/-- Python `str.strip()`: drop leading and trailing whitespace, written
structurally over the character list. -/
def strTrim (s : String) : String :=
  ⟨((s.data.dropWhile Char.isWhitespace).reverse.dropWhile Char.isWhitespace).reverse⟩

/-- Keyword test of the fallback classifier: some keyword of `kws` occurs in
the lower-cased title (segment_by_job_title.py:154-169). -/
def hasKeyword (kws : List String) (title : String) : Bool :=
  kws.any (fun k => strContains (strLower title) k)

/-- Fallback bucket of a title, following the if/elif chain of
`fallback_segmentation` (segment_by_job_title.py:153-173): the five keyword
lists are tested in order, anything else lands in the general bucket. -/
inductive Bucket where
  | exec | operations | marketing | sales | technical | general
deriving DecidableEq, Repr

/-- Classification of one title by the fallback if/elif chain. -/
def classifyTitle (t : String) : Bucket :=
  if hasKeyword ["ceo", "founder", "owner", "president", "managing director",
      "chief executive"] t then .exec
  else if hasKeyword ["coo", "operations", "chief operating"] t then .operations
  else if hasKeyword ["cmo", "marketing", "brand", "chief marketing"] t then .marketing
  else if hasKeyword ["sales", "business development", "revenue"] t then .sales
  else if hasKeyword ["cto", "technology", "engineering", "technical",
      "chief technology"] t then .technical
  else .general

/-- Segment dictionary the fallback builds for a non-empty exec bucket. -/
def execSegOf (l : List String) : SegDef :=
  { segment_id := "exec", segment_name := "Executive Leadership",
    job_titles := l, messaging_angle := "Revenue growth and strategic outcomes" }

/-- Segment dictionary the fallback builds for a non-empty operations bucket. -/
def opsSegOf (l : List String) : SegDef :=
  { segment_id := "operations", segment_name := "Operations Leadership",
    job_titles := l, messaging_angle := "Operational efficiency with revenue impact" }

/-- Segment dictionary the fallback builds for a non-empty marketing bucket. -/
def mktSegOf (l : List String) : SegDef :=
  { segment_id := "marketing", segment_name := "Marketing Leadership",
    job_titles := l, messaging_angle := "Lead generation ROI and brand growth" }

/-- Segment dictionary the fallback builds for a non-empty sales bucket. -/
def salesSegOf (l : List String) : SegDef :=
  { segment_id := "sales", segment_name := "Sales Leadership",
    job_titles := l, messaging_angle := "Pipeline acceleration and quota attainment" }

/-- Segment dictionary the fallback builds for a non-empty technical bucket. -/
def techSegOf (l : List String) : SegDef :=
  { segment_id := "technical", segment_name := "Technical Leadership",
    job_titles := l, messaging_angle := "Innovation and technical excellence" }

/-- Segment dictionary the fallback builds for a standalone general bucket. -/
def genSegOf (l : List String) : SegDef :=
  { segment_id := "general", segment_name := "General Management",
    job_titles := l, messaging_angle := "Business growth and operational excellence" }

/-- Embedding of `fallback_segmentation` (segment_by_job_title.py:132).  The
six accumulator lists of the Python single pass are the titles classified
into each bucket, in input order; segments are then appended for the
non-empty buckets in the fixed order, and a small general bucket is folded
into the job-title list of `segments[0]` (which is the exec segment, since
the merge requires `exec_titles` to be non-empty). -/
def fallback_segmentation (job_titles : List String) : List SegDef :=
  let exec_titles := job_titles.filter (fun t => classifyTitle t == .exec)
  let operations_titles := job_titles.filter (fun t => classifyTitle t == .operations)
  let marketing_titles := job_titles.filter (fun t => classifyTitle t == .marketing)
  let sales_titles := job_titles.filter (fun t => classifyTitle t == .sales)
  let technical_titles := job_titles.filter (fun t => classifyTitle t == .technical)
  let general_titles := job_titles.filter (fun t => classifyTitle t == .general)
  let segments :=
    (if !exec_titles.isEmpty then [execSegOf exec_titles] else []) ++
    (if !operations_titles.isEmpty then [opsSegOf operations_titles] else []) ++
    (if !marketing_titles.isEmpty then [mktSegOf marketing_titles] else []) ++
    (if !sales_titles.isEmpty then [salesSegOf sales_titles] else []) ++
    (if !technical_titles.isEmpty then [techSegOf technical_titles] else [])
  if !general_titles.isEmpty then
    if general_titles.length < 10 && !exec_titles.isEmpty then
      segments.modifyHead (fun s => { s with job_titles := s.job_titles ++ general_titles })
    else
      segments ++ [genSegOf general_titles]
  else segments

/-- Raw title of a lead: `lead.get('job_title') or lead.get('title') or ''`
(segment_by_job_title.py:276 and :313, the latter adding `.strip()`). -/
def rawTitle (l : Lead) : String :=
  (pyOr (pyOr l.job_title l.title) (some "")).getD ""

/-- Unique-title extraction (segment_by_job_title.py:274-278): first
occurrence order, skipping falsy titles and duplicates. -/
def extract_job_titles (leads : List Lead) : List String :=
  leads.foldl
    (fun acc l =>
      let jt := rawTitle l
      if !jt.isEmpty && !acc.contains jt then acc ++ [jt] else acc)
    []

/-- Pairs `(title.lower(), segment_id)` in insertion order of the
`title_to_segment` dictionary build (segment_by_job_title.py:302-306). -/
def titlePairs (segs : List SegDef) : List (String × String) :=
  segs.flatMap (fun s => s.job_titles.map (fun t => (strLower t, s.segment_id)))

/-- Dictionary lookup with last-write-wins semantics over an insertion-ordered
association list. -/
def dictGet (pairs : List (String × String)) (k : String) : Option String :=
  (pairs.reverse.find? (fun p => p.1 == k)).map (·.2)

/-- Pointwise update of a string-keyed map. -/
def upd {α : Type} (m : String → α) (k : String) (v : α) : String → α :=
  fun q => if q = k then v else m q

/-- One iteration of the lead-splitting loop (segment_by_job_title.py:312-322):
resolve the stripped title, look it up case-insensitively, and append the lead
to its segment bucket or to the unmatched list. -/
def assignStep (lookup : String → Option String)
    (acc : (String → List Lead) × List Lead) (l : Lead) :
    (String → List Lead) × List Lead :=
  let job_title := strTrim (rawTitle l)
  let sid? := lookup (strLower job_title)
  if pyTruthy sid? then
    let sid := sid?.getD ""
    (upd acc.1 sid (acc.1 sid ++ [l]), acc.2)
  else
    (acc.1, acc.2 ++ [l])

/-- Initial `segment_leads` map after the splitting loop and the
unmatched-to-exec fold (segment_by_job_title.py:308-327). -/
def assignAll (leads : List Lead) (defs : List SegDef) : String → List Lead :=
  let lookup := dictGet (titlePairs defs)
  let p := leads.foldl (assignStep lookup) (fun _ => [], [])
  if !p.2.isEmpty then upd p.1 "exec" (p.1 "exec" ++ p.2) else p.1

/-- State of the filtering loop (segment_by_job_title.py:329-372): the
`filtered_segments` list, the `segment_leads` map, the files written so far in
write order (keyed by segment id; the filename is `segment_{id}_leads.json`),
and `total_saved_leads`. -/
structure AState where
  filtered : List OutSeg
  m : String → List Lead
  writes : List (String × List Lead)
  total_saved : Nat

/-- Bumping the `lead_count` of the first exec entry, the for/break search of
segment_by_job_title.py:357-361. -/
def addToFirstExec : List OutSeg → Nat → List OutSeg
  | [], _ => []
  | e :: rest, n =>
      if e.segment_id == "exec" then { e with lead_count := e.lead_count + n } :: rest
      else e :: addToFirstExec rest n

/-- Setting the `lead_count` of the first exec entry, the for/break search of
segment_by_job_title.py:381-384. -/
def setFirstExecCount : List OutSeg → Nat → List OutSeg
  | [], _ => []
  | e :: rest, n =>
      if e.segment_id == "exec" then { e with lead_count := n } :: rest
      else e :: setFirstExecCount rest n

/-- The fresh exec entry created when a small segment merges and no exec entry
exists yet (segment_by_job_title.py:363-371). -/
def execFromSeg (s : SegDef) (n : Nat) : OutSeg :=
  { segment_id := "exec", segment_name := "Executive Leadership",
    job_titles := s.job_titles,
    messaging_angle := "Revenue growth and strategic outcomes",
    lead_count := n }

/-- Body of the filtering loop for one manifest segment
(segment_by_job_title.py:333-372). -/
def stepSeg (minSize : Nat) (st : AState) (seg : SegDef) : AState :=
  let leads_in_segment := st.m seg.segment_id
  let lead_count := leads_in_segment.length
  if lead_count ≥ minSize then
    { filtered := st.filtered ++ [toOut seg lead_count],
      m := st.m,
      writes := st.writes ++ [(seg.segment_id, leads_in_segment)],
      total_saved := st.total_saved + lead_count }
  else if lead_count > 0 then
    if st.filtered.any (fun e => e.segment_id == "exec") then
      { filtered := addToFirstExec st.filtered lead_count,
        m := upd st.m "exec" (st.m "exec" ++ leads_in_segment),
        writes := st.writes,
        total_saved := st.total_saved }
    else
      { filtered := st.filtered ++ [execFromSeg seg lead_count],
        m := upd st.m "exec" (st.m "exec" ++ leads_in_segment),
        writes := st.writes,
        total_saved := st.total_saved }
  else st

/-- The filtering loop over all manifest segments. -/
def segLoop (minSize : Nat) : List SegDef → AState → AState
  | [], st => st
  | s :: rest, st => segLoop minSize rest (stepSeg minSize st s)

/-- The exec re-save block after the loop (segment_by_job_title.py:374-384):
when the exec partition is non-empty, rewrite its file last and set the
`lead_count` of the first exec manifest entry to the final partition length. -/
def finalizeExec (st : AState) : AState :=
  if !(st.m "exec").isEmpty then
    { st with writes := st.writes ++ [("exec", st.m "exec")],
              filtered := setFirstExecCount st.filtered (st.m "exec").length }
  else st

/-- Final mapping written to the output mapping file
(segment_by_job_title.py:387-392, minus the wall-clock timestamp). -/
structure MappingOut where
  segments : List OutSeg
  total_leads : Nat
  total_segments : Nat

/-- The Segment Assigner stage of `segment_by_job_title` from the point where
segment definitions are available (segment_by_job_title.py:302-396): build the
lookup, split the leads, run the filtering loop, re-save exec, and emit the
mapping. -/
def segment_core (leads : List Lead) (defs : List SegDef) (minSize : Nat) :
    AState × MappingOut :=
  let m0 := assignAll leads defs
  let st := finalizeExec (segLoop minSize defs ⟨[], m0, [], 0⟩)
  (st, { segments := st.filtered, total_leads := leads.length,
         total_segments := st.filtered.length })

/-- The single-general-segment definition used when no lead has a resolvable
title (segment_by_job_title.py:282-289). -/
def generalOnlyDefs : List SegDef :=
  [{ segment_id := "general", segment_name := "General", job_titles := [],
     messaging_angle := "Business growth and operational excellence" }]

/-- Embedding of `segment_by_job_title` after the input file is loaded
(segment_by_job_title.py:274-416): extract the unique titles, choose the
single-general definitions when there are none and otherwise the clusterer's
output (`cluster` covers both the AI path and the fallback path), then run
the assigner.  The Python function returns status `"success"` on every path
past loading. -/
def segment_by_job_title (leads : List Lead) (cluster : List String → List SegDef)
    (minSize : Nat) : AState × MappingOut :=
  let job_titles := extract_job_titles leads
  let defs := if job_titles.isEmpty then generalOnlyDefs else cluster job_titles
  segment_core leads defs minSize

/-- Content of the file with key `k` after a sequence of writes: the last
write wins; `none` when the file was never written. -/
def fileContent (writes : List (String × List Lead)) (k : String) :
    Option (List Lead) :=
  (writes.reverse.find? (fun p => p.1 == k)).map (·.2)

/-- A destination entry is benign for the exit code: its status is
`success`, or it is the error entry of a destination that had no
valid-email lead (which leaves every run counter untouched). -/
def benignEntry (e : DestEntry) : Bool :=
  match e with
  | .uploaded _ .noValidLeads => true
  | e => deStatus e == "success"

/-! Concrete test fixtures used by counterexamples and witnesses. -/

/-- Lead with a syntactically valid email. -/
def okLead : Lead := { email := some "a@b.co" }

/-- Lead with no email at all (and no title). -/
def blankLead : Lead := {}

/-- Lead whose resolved title is CEO. -/
def ceoLead : Lead := { title := some "CEO" }

/-- Lead whose resolved title is COO. -/
def cooLead : Lead := { title := some "COO" }

/-- Manifest exec segment definition holding the CEO title. -/
def execSegDef : SegDef :=
  { segment_id := "exec", segment_name := "Executive Leadership",
    job_titles := ["CEO"], messaging_angle := "Revenue growth and strategic outcomes" }

/-- Manifest operations segment definition holding the COO title. -/
def opsSegDef : SegDef :=
  { segment_id := "operations", segment_name := "Operations Leadership",
    job_titles := ["COO"], messaging_angle := "Operational efficiency with revenue impact" }

/-- Two-segment manifest: exec then operations, with CEO and COO titles. -/
def twoSegDefs : List SegDef := [execSegDef, opsSegDef]

/-- Mapping with exec and marketing segments, as read by the matcher. -/
def twoSegMapping : SegMappingIn :=
  ⟨[{ segment_id := "exec", segment_name := "Executive Leadership" },
    { segment_id := "marketing", segment_name := "Marketing Leadership" }]⟩

/-- Single successful campaign whose name resolves to the exec segment. -/
def oneCampaignData : CampaignsData :=
  ⟨[{ campaign_name := some "Camp - Executive Leadership", campaign_id := some "c1",
      status := some "success" }]⟩

/-- Mapping with just the exec segment. -/
def oneSegMapping : SegMappingIn :=
  ⟨[{ segment_id := "exec", segment_name := "Executive Leadership" }]⟩

/-- Leads directory with a single exec partition holding one lead without any
email address. -/
def noEmailDir : LeadsDir :=
  fun sid => if sid = "exec" then .ok [blankLead] else .missing

/-- Run with one destination whose partition has zero valid-email leads. -/
def zeroValidRun : RunResult :=
  add_leads_to_campaigns_segmented (some "key") (.ok oneCampaignData) (.ok oneSegMapping)
    noEmailDir (fun _ _ => .exn)

/-- Three successful campaigns: one with no resolvable segment, one resolving
to marketing, one resolving to exec. -/
def threeCampaignData : CampaignsData :=
  ⟨[{ campaign_name := some "Product A - Unknown Segment", campaign_id := some "x1",
      status := some "success" },
    { campaign_name := some "Product B - Marketing Leadership", campaign_id := some "x2",
      status := some "success" },
    { campaign_name := some "Product C - Executive Leadership", campaign_id := some "x3",
      status := some "success" }]⟩

/-- Leads directory where the exec partition holds 150 valid leads (two
batches) and every other partition file is missing. -/
def execOnlyDir : LeadsDir :=
  fun sid => if sid = "exec" then .ok (List.replicate 150 okLead) else .missing

/-- End-to-end run over the three campaigns: one skipped, one errored on a
missing partition file, one delivered in two fully successful batches. -/
def threeCampaignRun : RunResult :=
  add_leads_to_campaigns_segmented (some "key") (.ok threeCampaignData) (.ok twoSegMapping)
    execOnlyDir (fun _ _ => .http 200 none)

/-- The report produced by `threeCampaignRun`, written out. -/
def threeCampaignReport : RunReport :=
  { status := "partial",
    results := [.skippedNoSegment "Product A - Unknown Segment",
                .errorMissingFile "Product B - Marketing Leadership" "marketing",
                .uploaded "Product C - Executive Leadership" (.delivered 150 150 150 0)],
    campaigns_processed := 3,
    total_uploaded := 150,
    total_failed := 1,
    campaigns_skipped := 1 }

/-- The summary field campaigns_processed of a run, 0 for an early error. -/
def reportProcessed : RunResult → Nat
  | .err _ => 0
  | .report r => r.campaigns_processed

/-- The summary field campaigns_skipped of a run, 0 for an early error. -/
def reportSkipped : RunResult → Nat
  | .err _ => 0
  | .report r => r.campaigns_skipped

/-- Response oracle of the C7 scenario: the second batch gets a 500, every
other batch a bare 200 response. -/
def secondBatchFails : Nat → Resp :=
  fun i => if i = 1 then .http 500 none else .http 200 none

/-! Helper lemmas about the run loop. -/

theorem stepCampaign_eq (mapping : SegMappingIn) (dir : LeadsDir) (resp : Nat → Resp)
    (st : RState) (c : Campaign) :
    stepCampaign mapping dir resp st c =
      { results := st.results ++ [entryFor mapping dir resp c],
        total_uploaded := st.total_uploaded + upContribution (entryFor mapping dir resp c),
        total_failed := st.total_failed + failContribution (entryFor mapping dir resp c),
        total_skipped := st.total_skipped + skipContribution (entryFor mapping dir resp c) } := by
  unfold stepCampaign entryFor
  dsimp only
  split
  · simp [upContribution, failContribution, skipContribution]
  · split
    · simp [upContribution, failContribution, skipContribution]
    · simp [upContribution, failContribution, skipContribution]
    · split
      · simp [upContribution, failContribution, skipContribution]
      · simp [upContribution, failContribution, skipContribution]

theorem campLoop_eq (mapping : SegMappingIn) (dir : LeadsDir) (resp : Nat → Nat → Resp) :
    ∀ (cs : List Campaign) (i : Nat) (st : RState),
    campLoop mapping dir resp i cs st =
      { results := st.results ++ entriesFor mapping dir resp i cs,
        total_uploaded :=
          st.total_uploaded + ((entriesFor mapping dir resp i cs).map upContribution).sum,
        total_failed :=
          st.total_failed + ((entriesFor mapping dir resp i cs).map failContribution).sum,
        total_skipped :=
          st.total_skipped + ((entriesFor mapping dir resp i cs).map skipContribution).sum }
  | [], i, st => by simp [campLoop, entriesFor]
  | c :: rest, i, st => by
      rw [campLoop, stepCampaign_eq, campLoop_eq mapping dir resp rest (i + 1)]
      simp [entriesFor, List.append_assoc, Nat.add_assoc]

theorem benign_iff (e : DestEntry) :
    (failContribution e = 0 ∧ skipContribution e = 0) ↔ benignEntry e = true := by
  cases e with
  | skippedNoSegment n => simp [failContribution, skipContribution, benignEntry, deStatus]
  | errorMissingFile n s => simp [failContribution, skipContribution, benignEntry, deStatus]
  | errorBadJson n s => simp [failContribution, skipContribution, benignEntry, deStatus]
  | skippedEmpty n s => simp [failContribution, skipContribution, benignEntry, deStatus]
  | uploaded n r =>
      cases r with
      | noValidLeads => simp [failContribution, skipContribution, benignEntry, crFailed]
      | delivered a b u f =>
          by_cases hf : f = 0 <;>
            simp [failContribution, skipContribution, benignEntry, deStatus, crStatus,
              crFailed, hf]

theorem chunksGo_congr (bs : Nat) (hbs : bs ≠ 0) :
    ∀ (f1 f2 : Nat) (l : List Lead), l.length ≤ f1 → l.length ≤ f2 →
      chunksGo bs f1 l = chunksGo bs f2 l := by
  intro f1
  induction f1 with
  | zero =>
      intro f2 l h1 h2
      have : l = [] := List.eq_nil_of_length_eq_zero (Nat.le_zero.mp h1)
      subst this
      cases f2 <;> rfl
  | succ f ih =>
      intro f2 l h1 h2
      cases l with
      | nil => cases f2 <;> rfl
      | cons x xs =>
          cases f2 with
          | zero => simp at h2
          | succ g =>
              simp only [chunksGo]
              congr 1
              apply ih
              · simp only [List.length_drop, List.length_cons] at *
                omega
              · simp only [List.length_drop, List.length_cons] at *
                omega

theorem chunks_nil (bs : Nat) : chunks bs ([] : List Lead) = [] := rfl

theorem chunks_cons (bs : Nat) (l : List Lead) (hbs : bs ≠ 0) (hl : l ≠ []) :
    chunks bs l = l.take bs :: chunks bs (l.drop bs) := by
  cases l with
  | nil => exact absurd rfl hl
  | cons x xs =>
      show chunksGo bs (x :: xs).length (x :: xs) = _
      simp only [List.length_cons, chunksGo]
      congr 1
      unfold chunks
      apply chunksGo_congr bs hbs
      · simp only [List.length_drop, List.length_cons]
        omega
      · exact Nat.le_refl _

/-! Claim theorems. -/

/-- C6 (amended): on a response with status exactly 200 the batch result is
the body's uploaded-count field (defaulting to the batch size when absent)
with zero failures; on a response with any other status, or on a transport
error, the entire batch is counted as failed, with no partial credit; the
function performs no retry (it is a pure function of one response). -/
theorem C6_upload_policy (batch : List Lead) (lu : Option Nat) :
    upload_single_batch batch (.http 200 lu) = { uploaded := lu.getD batch.length, failed := 0 } ∧
    (∀ s : Nat, s ≠ 200 →
      upload_single_batch batch (.http s lu) = { uploaded := 0, failed := batch.length }) ∧
    upload_single_batch batch .exn = { uploaded := 0, failed := batch.length } := by
  refine ⟨by simp [upload_single_batch], fun s hs => ?_, by simp [upload_single_batch]⟩
  simp [upload_single_batch, hs]

/-- C6 counterexample: 201 is a 2xx status, yet a 201 response whose body
reports the full batch as uploaded is counted as a total batch failure,
contradicting the claim that any 2xx response yields
`uploaded = leads_uploaded, failed = 0`. -/
theorem C6_counterexample :
    (200 ≤ 201 ∧ 201 < 300) ∧
    upload_single_batch [okLead, okLead] (.http 201 (some 2)) = { uploaded := 0, failed := 2 } ∧
    upload_single_batch [okLead, okLead] (.http 201 (some 2)) ≠ { uploaded := 2, failed := 0 } := by
  decide

/-- Witness for C6_upload_policy at a concrete non-200 status. -/
theorem C6_witness :
    upload_single_batch [okLead] (.http 500 none) = { uploaded := 0, failed := 1 } :=
  (C6_upload_policy [okLead] none).2.1 500 (by decide)

/-- C7: for a destination with 250 valid-email leads and batch size 100,
exactly three batches of sizes 100, 100, 50 are formed in original order;
when the second batch fails entirely and the other two succeed in full, the
aggregate is uploaded = 150, failed = 100 and the destination status is
partial. -/
theorem C7_batch_delivery (leads : List Lead)
    (hlen : leads.length = 250)
    (hv : ∀ l ∈ leads, is_valid_email (resolvedEmail l) = true) :
    (chunks 100 leads).map List.length = [100, 100, 50] ∧
    (chunks 100 leads).flatten = leads ∧
    add_leads_to_campaign leads secondBatchFails 100 = .delivered 250 250 150 100 ∧
    crStatus (add_leads_to_campaign leads secondBatchFails 100) = "partial" := by
  have hfilter : leads.filter (fun l => is_valid_email (resolvedEmail l)) = leads :=
    List.filter_eq_self.mpr hv
  have h1 : leads ≠ [] := by
    intro h
    rw [h] at hlen
    simp at hlen
  have hd1 : (leads.drop 100).length = 150 := by simp [hlen]
  have h2 : leads.drop 100 ≠ [] := by
    intro h
    rw [h] at hd1
    simp at hd1
  have hdd : (leads.drop 100).drop 100 = leads.drop 200 := by
    rw [List.drop_drop]
  have hd2 : (leads.drop 200).length = 50 := by simp [hlen]
  have h3 : leads.drop 200 ≠ [] := by
    intro h
    rw [h] at hd2
    simp at hd2
  have ht3 : (leads.drop 200).take 100 = leads.drop 200 :=
    List.take_of_length_le (by omega)
  have hd3 : (leads.drop 200).drop 100 = [] :=
    List.drop_eq_nil_of_le (by omega)
  have echunks : chunks 100 leads = [leads.take 100, (leads.drop 100).take 100, leads.drop 200] := by
    rw [chunks_cons 100 leads (by omega) h1,
        chunks_cons 100 (leads.drop 100) (by omega) h2, hdd,
        chunks_cons 100 (leads.drop 200) (by omega) h3, ht3, hd3, chunks_nil]
  have hlt : (leads.take 100).length = 100 := by simp [hlen]
  have hlt2 : ((leads.drop 100).take 100).length = 100 := by simp [hd1]
  have hflat : (chunks 100 leads).flatten = leads := by
    rw [echunks]
    simp only [List.flatten, List.append_nil]
    rw [← hdd, List.take_append_drop, List.take_append_drop]
  have hadd : add_leads_to_campaign leads secondBatchFails 100 = .delivered 250 250 150 100 := by
    unfold add_leads_to_campaign
    dsimp only
    rw [hfilter, if_neg (by simp [h1]), echunks]
    simp only [uploadBatches, secondBatchFails]
    norm_num
    simp [upload_single_batch, hlt, hlt2, hd2, hlen]
  refine ⟨?_, hflat, hadd, ?_⟩
  · rw [echunks]
    simp [hlt, hlt2, hd2]
  · rw [hadd]
    simp [crStatus]

/-- Witness for C7_batch_delivery on 250 concrete valid-email leads. -/
theorem C7_witness :
    (chunks 100 (List.replicate 250 okLead)).map List.length = [100, 100, 50] ∧
    (chunks 100 (List.replicate 250 okLead)).flatten = List.replicate 250 okLead ∧
    add_leads_to_campaign (List.replicate 250 okLead) secondBatchFails 100 =
      .delivered 250 250 150 100 ∧
    crStatus (add_leads_to_campaign (List.replicate 250 okLead) secondBatchFails 100) =
      "partial" :=
  C7_batch_delivery (List.replicate 250 okLead) (List.length_replicate 250 okLead)
    (fun l hl => by
      rw [List.eq_of_mem_replicate hl]
      decide)

/-- C8: the Destination Matcher walks the manifest segments in stored order
and yields the segment_id of the first segment whose segment_name occurs
literally (case-sensitively) in the destination display name, `none` when no
segment matches; on the two-segment mapping the HVAC exec name resolves to
exec and the unknown name resolves to none. -/
theorem C8_first_match :
    (∀ (name : String) (segs : List MSeg),
        (∀ s ∈ segs, strContains name s.segment_name = false) →
        extract_segment_from_campaign_name name segs = none) ∧
    (∀ (name : String) (pre : List MSeg) (s : MSeg) (post : List MSeg),
        (∀ q ∈ pre, strContains name q.segment_name = false) →
        strContains name s.segment_name = true →
        extract_segment_from_campaign_name name (pre ++ s :: post) = some s.segment_id) ∧
    extract_segment_from_campaign_name "Product A - Executive Leadership - HVAC"
      twoSegMapping.segments = some "exec" ∧
    extract_segment_from_campaign_name "Product A - Unknown Segment"
      twoSegMapping.segments = none := by
  refine ⟨?_, ?_, by decide, by decide⟩
  · intro name segs h
    induction segs with
    | nil => rfl
    | cons a rest ih =>
        simp only [extract_segment_from_campaign_name, h a (by simp)]
        exact ih fun q hq => h q (by simp [hq])
  · intro name pre s post hpre hs
    induction pre with
    | nil => simp [extract_segment_from_campaign_name, hs]
    | cons a rest ih =>
        simp only [List.cons_append, extract_segment_from_campaign_name, hpre a (by simp)]
        simp only [Bool.false_eq_true, if_false]
        exact ih fun q hq => hpre q (by simp [hq])

/-- Witness for C8_first_match: the no-match part applied to the singleton
marketing mapping. -/
theorem C8_witness :
    extract_segment_from_campaign_name "Product A - Unknown Segment"
      [{ segment_id := "marketing", segment_name := "Marketing Leadership" }] = none :=
  C8_first_match.1 _ _ (by decide)

theorem zeroValidRun_eq :
    zeroValidRun = .report
      { status := "success",
        results := [.uploaded "Camp - Executive Leadership" .noValidLeads],
        campaigns_processed := 1, total_uploaded := 0, total_failed := 0,
        campaigns_skipped := 0 } := by
  rfl

set_option maxRecDepth 4000 in
theorem threeCampaignRun_eq : threeCampaignRun = .report threeCampaignReport := by
  rfl

/-- C1 counterexample: a run whose only destination is recorded with status
error (its partition had zero valid-email leads) still exits with code 0,
contradicting the claim that any destination status other than success
forces a non-zero exit. -/
theorem C1_counterexample :
    exitCode zeroValidRun = 0 ∧ (runResults zeroValidRun).map deStatus = ["error"] := by
  rw [zeroValidRun_eq]
  decide

/-- C1 (amended): the process exits with code 0 iff the run reached the
report stage and every destination entry is benign, i.e. has status success
or is the error entry of a destination with zero valid-email leads.
Configuration and required-input failures, skipped destinations, partial
destinations and per-destination file errors all force a non-zero exit, but
a zero-valid-email error destination does not, because its result dictionary
carries no failed count. -/
theorem C1_exit_code (apiKey : Option String) (cf : FileContent CampaignsData)
    (sf : FileContent SegMappingIn) (dir : LeadsDir) (resp : Nat → Nat → Resp) :
    exitCode (add_leads_to_campaigns_segmented apiKey cf sf dir resp) = 0 ↔
      ∃ rep, add_leads_to_campaigns_segmented apiKey cf sf dir resp = .report rep ∧
        rep.results.all benignEntry = true := by
  unfold add_leads_to_campaigns_segmented
  dsimp only
  by_cases hk : (!pyTruthy apiKey) = true
  · simp [hk, exitCode, runStatus]
  · rw [if_neg hk]
    cases cf with
    | missing => simp [exitCode, runStatus]
    | badJSON => simp [exitCode, runStatus]
    | ok campaigns_data =>
        dsimp only
        by_cases hsc : (campaigns_data.campaigns.filter
            (fun c => c.status == some "success")).isEmpty = true
        · simp [hsc, exitCode, runStatus]
        · rw [if_neg hsc]
          cases sf with
          | missing => simp [exitCode, runStatus]
          | badJSON => simp [exitCode, runStatus]
          | ok mapping =>
              dsimp only
              rw [campLoop_eq]
              simp only [RunResult.report.injEq, exists_eq_left', List.nil_append,
                Nat.zero_add, exitCode, runStatus]
              set es := entriesFor mapping dir resp 0
                (campaigns_data.campaigns.filter (fun c => c.status == some "success"))
                with hes
              have key : ((es.map failContribution).sum = 0 ∧
                  (es.map skipContribution).sum = 0) ↔ es.all benignEntry = true := by
                rw [List.all_eq_true, List.sum_eq_zero_iff, List.sum_eq_zero_iff]
                constructor
                · rintro ⟨h1, h2⟩ e he
                  exact (benign_iff e).mp
                    ⟨h1 _ (List.mem_map_of_mem _ he), h2 _ (List.mem_map_of_mem _ he)⟩
                · intro h
                  constructor
                  · rintro x hx
                    rcases List.mem_map.mp hx with ⟨e, he, rfl⟩
                    exact ((benign_iff e).mpr (h e he)).1
                  · rintro x hx
                    rcases List.mem_map.mp hx with ⟨e, he, rfl⟩
                    exact ((benign_iff e).mpr (h e he)).2
              rw [← key]
              by_cases hf : (es.map failContribution).sum = 0 <;>
                by_cases hs : (es.map skipContribution).sum = 0 <;>
                simp [hf, hs]

/-- Witness for C1_exit_code at the zero-valid-email run, whose exit code is
zero. -/
theorem C1_witness :
    ∃ rep, add_leads_to_campaigns_segmented (some "key") (.ok oneCampaignData)
        (.ok oneSegMapping) noEmailDir (fun _ _ => .exn) = .report rep ∧
      rep.results.all benignEntry = true :=
  (C1_exit_code (some "key") (.ok oneCampaignData) (.ok oneSegMapping) noEmailDir
    (fun _ _ => .exn)).mp (by rw [show add_leads_to_campaigns_segmented (some "key")
      (.ok oneCampaignData) (.ok oneSegMapping) noEmailDir (fun _ _ => .exn) =
      zeroValidRun from rfl, zeroValidRun_eq]; decide)

/-- C2 counterexample: in the three-destination scenario (one skipped, one
errored on a missing partition file, one delivered successfully) the Run
Report summary records campaigns_processed = 3 — the number of
successful-status campaigns in the input — not 2 as the claim states. -/
theorem C2_counterexample :
    (runResults threeCampaignRun).map deStatus = ["skipped", "error", "success"] ∧
    reportProcessed threeCampaignRun ≠ 2 := by
  rw [threeCampaignRun_eq]
  decide

/-- C2 (amended): in the three-destination scenario, campaigns_processed
counts every successful-status campaign of the input, including the skipped
one, so it equals 3, while campaigns_skipped = 1. -/
theorem C2_run_summary :
    (runResults threeCampaignRun).map deStatus = ["skipped", "error", "success"] ∧
    reportProcessed threeCampaignRun = 3 ∧
    reportSkipped threeCampaignRun = 1 := by
  rw [threeCampaignRun_eq]
  decide

/-- C10: in every run that produces a report, total_failed is the sum over
the recorded destination entries of: the per-destination aggregated
failed-lead count for delivered destinations, exactly 1 for each destination
errored on a missing or malformed partition file, and 0 for skipped
destinations and for destinations errored for having zero valid-email leads
(whose result dictionary has no failed key). -/
theorem C10_total_failed (apiKey : Option String) (cf : FileContent CampaignsData)
    (sf : FileContent SegMappingIn) (dir : LeadsDir) (resp : Nat → Nat → Resp)
    (rep : RunReport)
    (h : add_leads_to_campaigns_segmented apiKey cf sf dir resp = .report rep) :
    rep.total_failed = (rep.results.map failContribution).sum ∧
    (∀ name sid, failContribution (.errorMissingFile name sid) = 1 ∧
                 failContribution (.errorBadJson name sid) = 1) ∧
    (∀ name, failContribution (.uploaded name .noValidLeads) = 0) ∧
    (∀ name t v u f, failContribution (.uploaded name (.delivered t v u f)) = f) := by
  refine ⟨?_, fun n s => ⟨rfl, rfl⟩, fun n => rfl, fun n t v u f => rfl⟩
  unfold add_leads_to_campaigns_segmented at h
  dsimp only at h
  split at h
  · exact RunResult.noConfusion h
  · split at h
    · exact RunResult.noConfusion h
    · exact RunResult.noConfusion h
    · split at h
      · exact RunResult.noConfusion h
      · split at h
        · exact RunResult.noConfusion h
        · exact RunResult.noConfusion h
        · rw [campLoop_eq] at h
          injection h with h2
          subst h2
          simp

/-- Witness for C10_total_failed on the three-destination run: 1 from the
file-error destination plus 0 from the successful delivery. -/
theorem C10_witness :
    threeCampaignReport.total_failed =
      (threeCampaignReport.results.map failContribution).sum ∧
    (∀ name sid, failContribution (.errorMissingFile name sid) = 1 ∧
                 failContribution (.errorBadJson name sid) = 1) ∧
    (∀ name, failContribution (.uploaded name .noValidLeads) = 0) ∧
    (∀ name t v u f, failContribution (.uploaded name (.delivered t v u f)) = f) :=
  C10_total_failed (some "key") (.ok threeCampaignData) (.ok twoSegMapping) execOnlyDir
    (fun _ _ => .http 200 none) threeCampaignReport threeCampaignRun_eq

/-! Helper lemmas about the Segment Assigner. -/

theorem extract_job_titles_all_blank (leads : List Lead)
    (hall : ∀ l ∈ leads, rawTitle l = "") : extract_job_titles leads = [] := by
  unfold extract_job_titles
  suffices h : ∀ (ls : List Lead) (acc : List String), (∀ l ∈ ls, rawTitle l = "") →
      ls.foldl (fun acc l =>
        let jt := rawTitle l
        if !jt.isEmpty && !acc.contains jt then acc ++ [jt] else acc) acc = acc by
    exact h leads [] hall
  intro ls
  induction ls with
  | nil => intro acc h; rfl
  | cons l rest ih =>
      intro acc h
      have hl : rawTitle l = "" := h l (by simp)
      simp only [List.foldl_cons, hl]
      exact ih acc fun x hx => h x (by simp [hx])

theorem assign_fold_no_lookup (leads : List Lead)
    (lookup : String → Option String) (hlk : ∀ k, lookup k = none) :
    ∀ (m : String → List Lead) (u : List Lead),
      leads.foldl (assignStep lookup) (m, u) = (m, u ++ leads) := by
  induction leads with
  | nil => intro m u; simp
  | cons l rest ih =>
      intro m u
      have hstep : assignStep lookup (m, u) l = (m, u ++ [l]) := by
        unfold assignStep
        simp [hlk, pyTruthy]
      simp only [List.foldl_cons, hstep, ih]
      simp

/-- C5 counterexample: a single lead with no resolvable title produces a
final manifest with zero segments (for the default minimum size 10) rather
than one containing a single general segment. -/
theorem C5_counterexample :
    (segment_by_job_title [blankLead] (fun _ => []) 10).2.segments = [] ∧
    (segment_by_job_title [blankLead] (fun _ => []) 10).2.segments.length ≠ 1 := by
  decide

/-- C5 (amended): for a non-empty lead set in which no lead has a resolvable
title, and a positive minimum segment size, the Segment Assigner does not
abort: a single-general-segment definition is created internally, but since
the general segment realizes zero leads (all leads being unmatched go to the
exec partition), it is filtered out, so the final emitted manifest contains
zero segments, while all leads are written to the exec partition file. -/
theorem C5_no_title_leads (leads : List Lead) (cluster : List String → List SegDef)
    (N : Nat) (hne : leads ≠ []) (hall : ∀ l ∈ leads, rawTitle l = "") (hN : 0 < N) :
    (segment_by_job_title leads cluster N).2.segments = [] ∧
    fileContent (segment_by_job_title leads cluster N).1.writes "exec" = some leads := by
  have hie : leads.isEmpty = false := by
    cases leads with
    | nil => exact absurd rfl hne
    | cons a as => rfl
  have hgen : upd (fun _ => ([] : List Lead)) "exec" leads "general" = [] := by
    unfold upd
    rw [if_neg (by decide)]
  have hexec : upd (fun _ => ([] : List Lead)) "exec" leads "exec" = leads := by
    unfold upd
    rw [if_pos rfl]
  have h1 : segment_by_job_title leads cluster N = segment_core leads generalOnlyDefs N := by
    unfold segment_by_job_title
    rw [extract_job_titles_all_blank leads hall]
    rfl
  have hlk : ∀ k, dictGet (titlePairs generalOnlyDefs) k = none := fun k => rfl
  have hm0 : assignAll leads generalOnlyDefs = upd (fun _ => []) "exec" leads := by
    unfold assignAll
    dsimp only
    rw [assign_fold_no_lookup leads _ hlk]
    simp [hie]
  have hloop : segLoop N generalOnlyDefs
      ⟨[], upd (fun _ => []) "exec" leads, [], 0⟩ =
      ⟨[], upd (fun _ => []) "exec" leads, [], 0⟩ := by
    show stepSeg N ⟨[], upd (fun _ => []) "exec" leads, [], 0⟩
      { segment_id := "general", segment_name := "General", job_titles := [],
        messaging_angle := "Business growth and operational excellence" } = _
    unfold stepSeg
    dsimp only
    rw [hgen]
    simp only [List.length_nil]
    rw [if_neg (by omega), if_neg (by omega)]
  rw [h1]
  unfold segment_core
  dsimp only
  rw [hm0, hloop]
  unfold finalizeExec
  dsimp only
  rw [hexec, if_pos (by rw [hie]; rfl)]
  refine ⟨rfl, ?_⟩
  simp [fileContent]

/-- Witness for C5_no_title_leads at the single blank lead. -/
theorem C5_witness :
    (segment_by_job_title [blankLead] (fun _ => []) 10).2.segments = [] ∧
    fileContent (segment_by_job_title [blankLead] (fun _ => []) 10).1.writes "exec" =
      some [blankLead] :=
  C5_no_title_leads [blankLead] (fun _ => []) 10 (by simp)
    (fun l hl => by rw [List.mem_singleton.mp hl]; rfl) (by omega)

/-! Invariants of the filtering loop. -/

theorem stepSeg_kept (N : Nat) (st : AState) (seg : SegDef)
    (h : N ≤ (st.m seg.segment_id).length) :
    stepSeg N st seg =
      { filtered := st.filtered ++ [toOut seg (st.m seg.segment_id).length],
        m := st.m,
        writes := st.writes ++ [(seg.segment_id, st.m seg.segment_id)],
        total_saved := st.total_saved + (st.m seg.segment_id).length } := by
  unfold stepSeg
  dsimp only
  rw [if_pos h]

theorem stepSeg_merge_exist (N : Nat) (st : AState) (seg : SegDef)
    (h1 : (st.m seg.segment_id).length < N)
    (h3 : st.filtered.any (fun e => e.segment_id == "exec") = true) :
    0 < (st.m seg.segment_id).length →
    stepSeg N st seg =
      { filtered := addToFirstExec st.filtered (st.m seg.segment_id).length,
        m := upd st.m "exec" (st.m "exec" ++ st.m seg.segment_id),
        writes := st.writes,
        total_saved := st.total_saved } := by
  intro h2
  unfold stepSeg
  dsimp only
  rw [if_neg (by omega), if_pos h2, if_pos h3]

theorem stepSeg_merge_new (N : Nat) (st : AState) (seg : SegDef)
    (h1 : (st.m seg.segment_id).length < N)
    (h3 : st.filtered.any (fun e => e.segment_id == "exec") = false) :
    0 < (st.m seg.segment_id).length →
    stepSeg N st seg =
      { filtered := st.filtered ++ [execFromSeg seg (st.m seg.segment_id).length],
        m := upd st.m "exec" (st.m "exec" ++ st.m seg.segment_id),
        writes := st.writes,
        total_saved := st.total_saved } := by
  intro h2
  unfold stepSeg
  dsimp only
  rw [if_neg (by omega), if_pos h2, if_neg (by rw [h3]; exact Bool.false_ne_true)]

theorem stepSeg_m_ne (N : Nat) (st : AState) (seg : SegDef) (k : String)
    (hk : k ≠ "exec") : (stepSeg N st seg).m k = st.m k := by
  unfold stepSeg
  dsimp only
  split
  · rfl
  · split
    · split
      · show upd st.m "exec" _ k = st.m k
        unfold upd
        rw [if_neg hk]
      · show upd st.m "exec" _ k = st.m k
        unfold upd
        rw [if_neg hk]
    · rfl

theorem segLoop_m_ne (N : Nat) :
    ∀ (defs : List SegDef) (st : AState) (k : String), k ≠ "exec" →
      (segLoop N defs st).m k = st.m k
  | [], _, _, _ => rfl
  | s :: rest, st, k, hk => by
      show (segLoop N rest (stepSeg N st s)).m k = st.m k
      rw [segLoop_m_ne N rest (stepSeg N st s) k hk, stepSeg_m_ne N st s k hk]

theorem stepSeg_m_exec (N : Nat) (st : AState) (seg : SegDef) :
    ∃ ex, (stepSeg N st seg).m "exec" = st.m "exec" ++ ex := by
  unfold stepSeg
  dsimp only
  split
  · exact ⟨[], by simp⟩
  · split
    · split
      · exact ⟨st.m seg.segment_id, by simp [upd]⟩
      · exact ⟨st.m seg.segment_id, by simp [upd]⟩
    · exact ⟨[], by simp⟩

theorem segLoop_m_exec (N : Nat) :
    ∀ (defs : List SegDef) (st : AState),
      ∃ ex, (segLoop N defs st).m "exec" = st.m "exec" ++ ex
  | [], st => ⟨[], by simp [segLoop]⟩
  | s :: rest, st => by
      obtain ⟨e1, he1⟩ := stepSeg_m_exec N st s
      obtain ⟨e2, he2⟩ := segLoop_m_exec N rest (stepSeg N st s)
      exact ⟨e1 ++ e2, by
        show (segLoop N rest (stepSeg N st s)).m "exec" = _
        rw [he2, he1, List.append_assoc]⟩

theorem addToFirstExec_ids : ∀ (l : List OutSeg) (n : Nat),
    (addToFirstExec l n).map (fun e => e.segment_id) = l.map (fun e => e.segment_id)
  | [], _ => rfl
  | e :: rest, n => by
      unfold addToFirstExec
      split
      · simp
      · simp [addToFirstExec_ids rest n]

theorem setFirstExecCount_ids : ∀ (l : List OutSeg) (n : Nat),
    (setFirstExecCount l n).map (fun e => e.segment_id) = l.map (fun e => e.segment_id)
  | [], _ => rfl
  | e :: rest, n => by
      unfold setFirstExecCount
      split
      · simp
      · simp [setFirstExecCount_ids rest n]

theorem addToFirstExec_titles : ∀ (l : List OutSeg) (n : Nat),
    (addToFirstExec l n).map (fun e => e.job_titles) = l.map (fun e => e.job_titles)
  | [], _ => rfl
  | e :: rest, n => by
      unfold addToFirstExec
      split
      · simp
      · simp [addToFirstExec_titles rest n]

theorem setFirstExecCount_titles : ∀ (l : List OutSeg) (n : Nat),
    (setFirstExecCount l n).map (fun e => e.job_titles) = l.map (fun e => e.job_titles)
  | [], _ => rfl
  | e :: rest, n => by
      unfold setFirstExecCount
      split
      · simp
      · simp [setFirstExecCount_titles rest n]

theorem addToFirstExec_mem : ∀ (l : List OutSeg) (n : Nat) (e : OutSeg),
    e ∈ l → e.segment_id ≠ "exec" → e ∈ addToFirstExec l n
  | [], _, _, he, _ => absurd he (by simp)
  | a :: rest, n, e, he, hne => by
      unfold addToFirstExec
      split
      · rename_i ha
        rcases List.mem_cons.mp he with h | h
        · subst h
          exact absurd (by simpa using ha) hne
        · exact List.mem_cons_of_mem _ h
      · rcases List.mem_cons.mp he with h | h
        · subst h
          exact List.mem_cons_self _ _
        · exact List.mem_cons_of_mem _ (addToFirstExec_mem rest n e h hne)

theorem setFirstExecCount_mem : ∀ (l : List OutSeg) (n : Nat) (e : OutSeg),
    e ∈ l → e.segment_id ≠ "exec" → e ∈ setFirstExecCount l n
  | [], _, _, he, _ => absurd he (by simp)
  | a :: rest, n, e, he, hne => by
      unfold setFirstExecCount
      split
      · rename_i ha
        rcases List.mem_cons.mp he with h | h
        · subst h
          exact absurd (by simpa using ha) hne
        · exact List.mem_cons_of_mem _ h
      · rcases List.mem_cons.mp he with h | h
        · subst h
          exact List.mem_cons_self _ _
        · exact List.mem_cons_of_mem _ (setFirstExecCount_mem rest n e h hne)

theorem stepSeg_filtered_mem (N : Nat) (st : AState) (seg : SegDef) (e : OutSeg)
    (he : e ∈ st.filtered) (hne : e.segment_id ≠ "exec") :
    e ∈ (stepSeg N st seg).filtered := by
  unfold stepSeg
  dsimp only
  split
  · exact List.mem_append_left _ he
  · split
    · split
      · exact addToFirstExec_mem _ _ _ he hne
      · exact List.mem_append_left _ he
    · exact he

theorem segLoop_filtered_mem (N : Nat) :
    ∀ (defs : List SegDef) (st : AState) (e : OutSeg),
      e ∈ st.filtered → e.segment_id ≠ "exec" → e ∈ (segLoop N defs st).filtered
  | [], _, _, he, _ => he
  | s :: rest, st, e, he, hne =>
      segLoop_filtered_mem N rest (stepSeg N st s) e
        (stepSeg_filtered_mem N st s e he hne) hne

theorem finalizeExec_m (st : AState) : (finalizeExec st).m = st.m := by
  unfold finalizeExec
  split
  · rfl
  · rfl

theorem finalizeExec_mem (st : AState) (e : OutSeg) (he : e ∈ st.filtered)
    (hne : e.segment_id ≠ "exec") : e ∈ (finalizeExec st).filtered := by
  unfold finalizeExec
  split
  · exact setFirstExecCount_mem _ _ _ he hne
  · exact he

theorem stepSeg_ids (N : Nat) (st : AState) (seg : SegDef) :
    ∃ newIds, (stepSeg N st seg).filtered.map (fun e => e.segment_id) =
        st.filtered.map (fun e => e.segment_id) ++ newIds ∧
      ∀ i ∈ newIds, i = seg.segment_id ∨ i = "exec" := by
  unfold stepSeg
  dsimp only
  split
  · exact ⟨[seg.segment_id], by simp [toOut]⟩
  · split
    · split
      · exact ⟨[], by simp [addToFirstExec_ids]⟩
      · exact ⟨["exec"], by simp [execFromSeg]⟩
    · exact ⟨[], by simp⟩

theorem segLoop_ids (N : Nat) :
    ∀ (defs : List SegDef) (st : AState),
      ∃ newIds, (segLoop N defs st).filtered.map (fun e => e.segment_id) =
          st.filtered.map (fun e => e.segment_id) ++ newIds ∧
        ∀ i ∈ newIds, i = "exec" ∨ i ∈ defs.map (fun s => s.segment_id)
  | [], st => ⟨[], by simp [segLoop]⟩
  | s :: rest, st => by
      obtain ⟨n1, hn1, hp1⟩ := stepSeg_ids N st s
      obtain ⟨n2, hn2, hp2⟩ := segLoop_ids N rest (stepSeg N st s)
      refine ⟨n1 ++ n2, ?_, ?_⟩
      · show (segLoop N rest (stepSeg N st s)).filtered.map _ = _
        rw [hn2, hn1, List.append_assoc]
      · intro i hi
        rcases List.mem_append.mp hi with h | h
        · rcases hp1 i h with h2 | h2
          · right
            rw [h2]
            simp
          · left
            exact h2
        · rcases hp2 i h with h2 | h2
          · left
            exact h2
          · right
            simp only [List.map_cons, List.mem_cons]
            right
            exact h2

theorem segLoop_append (N : Nat) :
    ∀ (l1 l2 : List SegDef) (st : AState),
      segLoop N (l1 ++ l2) st = segLoop N l2 (segLoop N l1 st)
  | [], l2, st => rfl
  | s :: rest, l2, st => segLoop_append N rest l2 (stepSeg N st s)

theorem stepSeg_writes (N : Nat) (st : AState) (seg : SegDef) :
    ∃ w0, (stepSeg N st seg).writes = st.writes ++ w0 ∧
      ∀ w ∈ w0, w.1 = seg.segment_id ∧ w.2 = st.m seg.segment_id ∧
        N ≤ (st.m seg.segment_id).length := by
  unfold stepSeg
  dsimp only
  split
  · rename_i h
    exact ⟨[(seg.segment_id, st.m seg.segment_id)], rfl, by simpa using h⟩
  · split
    · split
      · exact ⟨[], by simp⟩
      · exact ⟨[], by simp⟩
    · exact ⟨[], by simp⟩

theorem segLoop_writes (N : Nat) :
    ∀ (defs : List SegDef) (st : AState),
      ∃ extra, (segLoop N defs st).writes = st.writes ++ extra ∧
        ∀ w ∈ extra, ∃ s ∈ defs, w.1 = s.segment_id ∧
          (s.segment_id ≠ "exec" → w.2 = st.m s.segment_id ∧
            N ≤ (st.m s.segment_id).length)
  | [], st => ⟨[], by simp [segLoop]⟩
  | s :: rest, st => by
      obtain ⟨w0, hw0, hp0⟩ := stepSeg_writes N st s
      obtain ⟨w1, hw1, hp1⟩ := segLoop_writes N rest (stepSeg N st s)
      refine ⟨w0 ++ w1, ?_, ?_⟩
      · show (segLoop N rest (stepSeg N st s)).writes = _
        rw [hw1, hw0, List.append_assoc]
      · intro w hw
        rcases List.mem_append.mp hw with h | h
        · obtain ⟨ha, hb, hc⟩ := hp0 w h
          exact ⟨s, by simp, ha, fun _ => ⟨hb, hc⟩⟩
        · obtain ⟨s2, hs2, ha, hb⟩ := hp1 w h
          refine ⟨s2, by simp [hs2], ha, fun hne => ?_⟩
          obtain ⟨hb1, hb2⟩ := hb hne
          rw [stepSeg_m_ne N st s s2.segment_id hne] at hb1 hb2
          exact ⟨hb1, hb2⟩

theorem finalizeExec_writes (st : AState) :
    ∃ wf, (finalizeExec st).writes = st.writes ++ wf ∧ ∀ p ∈ wf, p.1 = "exec" := by
  unfold finalizeExec
  split
  · exact ⟨[("exec", st.m "exec")], rfl, by simp⟩
  · exact ⟨[], by simp⟩

theorem find?_append_none {α : Type} (p : α → Bool) :
    ∀ (l1 l2 : List α), (∀ x ∈ l1, p x = false) →
      (l1 ++ l2).find? p = l2.find? p
  | [], l2, _ => rfl
  | a :: rest, l2, h => by
      rw [List.cons_append, List.find?_cons_of_neg _ (by simp [h a (by simp)]),
        find?_append_none p rest l2 fun x hx => h x (by simp [hx])]

theorem fileContent_of_keys_ne (w : List (String × List Lead)) (k : String)
    (h : ∀ p ∈ w, p.1 ≠ k) : fileContent w k = none := by
  unfold fileContent
  rw [List.find?_eq_none.mpr]
  · rfl
  · intro p hp
    simp only [beq_iff_eq]
    exact h p (List.mem_reverse.mp hp)

theorem fileContent_last (w1 w2 : List (String × List Lead)) (k : String)
    (v : List Lead) (h : ∀ p ∈ w2, p.1 ≠ k) :
    fileContent (w1 ++ (k, v) :: w2) k = some v := by
  unfold fileContent
  rw [show w1 ++ (k, v) :: w2 = (w1 ++ [(k, v)]) ++ w2 by simp]
  rw [List.reverse_append]
  rw [find?_append_none _ w2.reverse _
    (fun x hx => by simp [h x (List.mem_reverse.mp hx)])]
  rw [List.reverse_append]
  simp

theorem setFirstExecCount_sets : ∀ (l : List OutSeg) (n : Nat),
    "exec" ∈ l.map (fun e => e.segment_id) →
    ∃ e ∈ setFirstExecCount l n, e.segment_id = "exec" ∧ e.lead_count = n
  | [], _, h => absurd h (by simp)
  | a :: rest, n, h => by
      unfold setFirstExecCount
      split
      · rename_i ha
        exact ⟨_, List.mem_cons_self _ _, by simpa using ha, rfl⟩
      · rename_i ha
        have ha2 : a.segment_id ≠ "exec" := by simpa using ha
        have h2 : "exec" ∈ rest.map (fun e => e.segment_id) := by
          rw [List.map_cons] at h
          rcases List.mem_cons.mp h with h3 | h3
          · exact absurd h3.symm ha2
          · exact h3
        obtain ⟨e, he, hp⟩ := setFirstExecCount_sets rest n h2
        exact ⟨e, List.mem_cons_of_mem _ he, hp⟩

theorem finalizeExec_ids (st : AState) :
    (finalizeExec st).filtered.map (fun e => e.segment_id) =
      st.filtered.map (fun e => e.segment_id) := by
  unfold finalizeExec
  split
  · exact setFirstExecCount_ids _ _
  · rfl

theorem finalizeExec_of_ne (st : AState) (h : st.m "exec" ≠ []) :
    finalizeExec st =
      { st with writes := st.writes ++ [("exec", st.m "exec")],
                filtered := setFirstExecCount st.filtered (st.m "exec").length } := by
  unfold finalizeExec
  rw [if_pos]
  cases hh : st.m "exec" with
  | nil => exact absurd hh h
  | cons a as => rfl

theorem nodup_split_id (defs pre post : List SegDef) (seg : SegDef)
    (hnodup : (defs.map (fun s => s.segment_id)).Nodup)
    (hsplit : defs = pre ++ seg :: post) :
    seg.segment_id ∉ pre.map (fun s => s.segment_id) ∧
    seg.segment_id ∉ post.map (fun s => s.segment_id) := by
  subst hsplit
  rw [List.map_append, List.map_cons, List.nodup_append] at hnodup
  obtain ⟨h1, h2, h3⟩ := hnodup
  exact ⟨fun hmem => h3 hmem (List.mem_cons_self _ _), (List.nodup_cons.mp h2).1⟩

theorem core_kept (N : Nat) (m0 : String → List Lead) (pre post : List SegDef)
    (seg : SegDef) (hx : seg.segment_id ≠ "exec")
    (hpost : seg.segment_id ∉ post.map (fun s => s.segment_id))
    (hk : N ≤ (m0 seg.segment_id).length) :
    toOut seg (m0 seg.segment_id).length ∈
      (finalizeExec (segLoop N (pre ++ seg :: post) ⟨[], m0, [], 0⟩)).filtered ∧
    fileContent
      (finalizeExec (segLoop N (pre ++ seg :: post) ⟨[], m0, [], 0⟩)).writes
      seg.segment_id = some (m0 seg.segment_id) := by
  have hsplit2 : segLoop N (pre ++ seg :: post) ⟨[], m0, [], 0⟩ =
      segLoop N post (stepSeg N (segLoop N pre ⟨[], m0, [], 0⟩) seg) := by
    rw [segLoop_append]
    rfl
  have hm1 : (segLoop N pre ⟨[], m0, [], 0⟩).m seg.segment_id = m0 seg.segment_id :=
    segLoop_m_ne N pre _ seg.segment_id hx
  have hk1 : N ≤ ((segLoop N pre ⟨[], m0, [], 0⟩).m seg.segment_id).length := by
    rw [hm1]
    exact hk
  have hstep := stepSeg_kept N (segLoop N pre ⟨[], m0, [], 0⟩) seg hk1
  have htid : (toOut seg (m0 seg.segment_id).length).segment_id ≠ "exec" := hx
  have hmem2 : toOut seg (m0 seg.segment_id).length ∈
      (stepSeg N (segLoop N pre ⟨[], m0, [], 0⟩) seg).filtered := by
    rw [hstep]
    dsimp only
    rw [hm1]
    exact List.mem_append_right _ (List.mem_singleton.mpr rfl)
  rw [hsplit2]
  constructor
  · exact finalizeExec_mem _ _
      (segLoop_filtered_mem N post _ _ hmem2 htid) htid
  · obtain ⟨extraPost, hepost, hppost⟩ :=
      segLoop_writes N post (stepSeg N (segLoop N pre ⟨[], m0, [], 0⟩) seg)
    obtain ⟨wf, hwf, hwfp⟩ :=
      finalizeExec_writes (segLoop N post (stepSeg N (segLoop N pre ⟨[], m0, [], 0⟩) seg))
    rw [hwf, hepost, hstep]
    dsimp only
    rw [hm1]
    simp only [List.append_assoc, List.singleton_append]
    apply fileContent_last
    intro p hp
    rcases List.mem_append.mp hp with h | h
    · obtain ⟨s2, hs2, hkey, _⟩ := hppost p h
      intro hcon
      apply hpost
      rw [← hcon, hkey]
      exact List.mem_map_of_mem _ hs2
    · have hpe : p.1 = "exec" := hwfp p h
      intro hcon
      exact hx (by rw [← hcon]; exact hpe)

theorem core_merged (N : Nat) (m0 : String → List Lead) (pre post : List SegDef)
    (seg : SegDef) (hx : seg.segment_id ≠ "exec")
    (hpre : seg.segment_id ∉ pre.map (fun s => s.segment_id))
    (hpost : seg.segment_id ∉ post.map (fun s => s.segment_id))
    (h1 : 0 < (m0 seg.segment_id).length) (h2 : (m0 seg.segment_id).length < N) :
    (∀ e ∈ (finalizeExec (segLoop N (pre ++ seg :: post) ⟨[], m0, [], 0⟩)).filtered,
        e.segment_id ≠ seg.segment_id) ∧
    fileContent
      (finalizeExec (segLoop N (pre ++ seg :: post) ⟨[], m0, [], 0⟩)).writes
      seg.segment_id = none ∧
    (∀ l ∈ m0 seg.segment_id,
        l ∈ (finalizeExec (segLoop N (pre ++ seg :: post) ⟨[], m0, [], 0⟩)).m "exec") ∧
    (∃ e ∈ (finalizeExec (segLoop N (pre ++ seg :: post) ⟨[], m0, [], 0⟩)).filtered,
        e.segment_id = "exec" ∧
        e.lead_count =
          ((finalizeExec (segLoop N (pre ++ seg :: post) ⟨[], m0, [], 0⟩)).m "exec").length) ∧
    (finalizeExec (segLoop N (pre ++ seg :: post) ⟨[], m0, [], 0⟩)).writes.getLast? =
      some ("exec",
        (finalizeExec (segLoop N (pre ++ seg :: post) ⟨[], m0, [], 0⟩)).m "exec") := by
  have hsplit2 : segLoop N (pre ++ seg :: post) ⟨[], m0, [], 0⟩ =
      segLoop N post (stepSeg N (segLoop N pre ⟨[], m0, [], 0⟩) seg) := by
    rw [segLoop_append]
    rfl
  have hm1 : (segLoop N pre ⟨[], m0, [], 0⟩).m seg.segment_id = m0 seg.segment_id :=
    segLoop_m_ne N pre _ seg.segment_id hx
  have h1' : 0 < ((segLoop N pre ⟨[], m0, [], 0⟩).m seg.segment_id).length := by
    rw [hm1]
    exact h1
  have h2' : ((segLoop N pre ⟨[], m0, [], 0⟩).m seg.segment_id).length < N := by
    rw [hm1]
    exact h2
  have hstepm : (stepSeg N (segLoop N pre ⟨[], m0, [], 0⟩) seg).m "exec" =
        (segLoop N pre ⟨[], m0, [], 0⟩).m "exec" ++ m0 seg.segment_id ∧
      (stepSeg N (segLoop N pre ⟨[], m0, [], 0⟩) seg).writes =
        (segLoop N pre ⟨[], m0, [], 0⟩).writes ∧
      "exec" ∈ (stepSeg N (segLoop N pre ⟨[], m0, [], 0⟩) seg).filtered.map
        (fun e => e.segment_id) ∧
      (seg.segment_id ∉ (segLoop N pre ⟨[], m0, [], 0⟩).filtered.map
          (fun e => e.segment_id) →
        seg.segment_id ∉ (stepSeg N (segLoop N pre ⟨[], m0, [], 0⟩) seg).filtered.map
          (fun e => e.segment_id)) := by
    cases hany : (segLoop N pre ⟨[], m0, [], 0⟩).filtered.any
        (fun e => e.segment_id == "exec") with
    | true =>
        have hstep := stepSeg_merge_exist N (segLoop N pre ⟨[], m0, [], 0⟩) seg h2' hany h1'
        rw [hstep]
        dsimp only
        refine ⟨by simp [upd, hm1], rfl, ?_, ?_⟩
        · rw [addToFirstExec_ids]
          obtain ⟨e, he, heq⟩ := List.any_eq_true.mp hany
          exact List.mem_map.mpr ⟨e, he, by simpa using heq⟩
        · intro hnm
          rw [addToFirstExec_ids]
          exact hnm
    | false =>
        have hstep := stepSeg_merge_new N (segLoop N pre ⟨[], m0, [], 0⟩) seg h2' hany h1'
        rw [hstep]
        dsimp only
        refine ⟨by simp [upd, hm1], rfl, ?_, ?_⟩
        · rw [List.map_append]
          exact List.mem_append_right _ (by simp [execFromSeg])
        · intro hnm
          rw [List.map_append]
          simp only [List.mem_append, not_or]
          exact ⟨hnm, by simp [execFromSeg, hx]⟩
  obtain ⟨hm2, hw2, hid2, hnid2⟩ := hstepm
  have hnid1 : seg.segment_id ∉ (segLoop N pre ⟨[], m0, [], 0⟩).filtered.map
      (fun e => e.segment_id) := by
    obtain ⟨n1, hn1, hp1⟩ := segLoop_ids N pre ⟨[], m0, [], 0⟩
    rw [hn1]
    dsimp only
    simp only [List.map_nil, List.nil_append]
    intro hmem
    rcases hp1 _ hmem with h | h
    · exact hx h
    · exact hpre h
  rw [hsplit2]
  obtain ⟨ex, hex⟩ := segLoop_m_exec N post (stepSeg N (segLoop N pre ⟨[], m0, [], 0⟩) seg)
  have hmexec : ∀ l ∈ m0 seg.segment_id,
      l ∈ (segLoop N post (stepSeg N (segLoop N pre ⟨[], m0, [], 0⟩) seg)).m "exec" := by
    intro l hl
    rw [hex, hm2]
    exact List.mem_append_left _ (List.mem_append_right _ hl)
  have hne : (segLoop N post (stepSeg N (segLoop N pre ⟨[], m0, [], 0⟩) seg)).m "exec" ≠ [] := by
    rw [hex, hm2]
    intro hcon
    have hlen := congrArg List.length hcon
    simp only [List.length_append, List.length_nil] at hlen
    omega
  have hfin := finalizeExec_of_ne _ hne
  obtain ⟨n2, hn2, hp2⟩ :=
    segLoop_ids N post (stepSeg N (segLoop N pre ⟨[], m0, [], 0⟩) seg)
  refine ⟨?_, ?_, ?_, ?_, ?_⟩
  · intro e he hcon
    have hme : e.segment_id ∈
        (finalizeExec (segLoop N post
          (stepSeg N (segLoop N pre ⟨[], m0, [], 0⟩) seg))).filtered.map
          (fun q => q.segment_id) := List.mem_map_of_mem _ he
    rw [finalizeExec_ids, hn2] at hme
    rcases List.mem_append.mp hme with h | h
    · rw [hcon] at h
      exact hnid2 hnid1 h
    · rcases hp2 _ h with h3 | h3
      · rw [hcon] at h3
        exact hx h3
      · rw [hcon] at h3
        exact hpost h3
  · obtain ⟨extraPre, hepre, hppre⟩ := segLoop_writes N pre ⟨[], m0, [], 0⟩
    obtain ⟨extraPost, hepost, hppost⟩ :=
      segLoop_writes N post (stepSeg N (segLoop N pre ⟨[], m0, [], 0⟩) seg)
    obtain ⟨wf, hwf, hwfp⟩ :=
      finalizeExec_writes (segLoop N post (stepSeg N (segLoop N pre ⟨[], m0, [], 0⟩) seg))
    rw [hwf, hepost, hw2, hepre]
    dsimp only
    simp only [List.nil_append, List.append_assoc]
    apply fileContent_of_keys_ne
    intro p hp hcon
    rcases List.mem_append.mp hp with h | h
    · obtain ⟨s2, hs2, hkey, _⟩ := hppre p h
      apply hpre
      rw [← hcon, hkey]
      exact List.mem_map_of_mem _ hs2
    · rcases List.mem_append.mp h with h4 | h4
      · obtain ⟨s2, hs2, hkey, _⟩ := hppost p h4
        apply hpost
        rw [← hcon, hkey]
        exact List.mem_map_of_mem _ hs2
      · exact hx (by rw [← hcon]; exact hwfp p h4)
  · intro l hl
    rw [finalizeExec_m]
    exact hmexec l hl
  · have hexecmem : "exec" ∈
        (segLoop N post (stepSeg N (segLoop N pre ⟨[], m0, [], 0⟩) seg)).filtered.map
          (fun e => e.segment_id) := by
      rw [hn2]
      exact List.mem_append_left _ hid2
    obtain ⟨e, he, he1, he2⟩ := setFirstExecCount_sets
      (segLoop N post (stepSeg N (segLoop N pre ⟨[], m0, [], 0⟩) seg)).filtered
      ((segLoop N post (stepSeg N (segLoop N pre ⟨[], m0, [], 0⟩) seg)).m "exec").length
      hexecmem
    refine ⟨e, ?_, he1, ?_⟩
    · rw [hfin]
      exact he
    · rw [hfin]
      exact he2
  · rw [hfin]
    dsimp only
    rw [List.getLast?_concat]

/-- C4: for every non-exec manifest segment (segment ids being distinct):
when its realized lead count reaches the minimum N, it is kept in the final
manifest with that lead_count and its partition is persisted under its own
file key; when its count is positive but below N, no manifest entry and no
file carries its id, all of its leads are merged into the exec partition, an
exec manifest entry exists (created if none existed) whose lead_count equals
the final merged exec partition length, and the exec partition is
re-persisted last. -/
theorem C4_size_floor_policy (leads : List Lead) (defs : List SegDef) (N : Nat)
    (hnodup : (defs.map (fun s => s.segment_id)).Nodup)
    (seg : SegDef) (hmem : seg ∈ defs) (hx : seg.segment_id ≠ "exec") :
    (N ≤ (assignAll leads defs seg.segment_id).length →
      toOut seg (assignAll leads defs seg.segment_id).length ∈
        (segment_core leads defs N).2.segments ∧
      fileContent (segment_core leads defs N).1.writes seg.segment_id =
        some (assignAll leads defs seg.segment_id)) ∧
    (0 < (assignAll leads defs seg.segment_id).length →
      (assignAll leads defs seg.segment_id).length < N →
      (∀ e ∈ (segment_core leads defs N).2.segments, e.segment_id ≠ seg.segment_id) ∧
      fileContent (segment_core leads defs N).1.writes seg.segment_id = none ∧
      (∀ l ∈ assignAll leads defs seg.segment_id,
        l ∈ (segment_core leads defs N).1.m "exec") ∧
      (∃ e ∈ (segment_core leads defs N).2.segments, e.segment_id = "exec" ∧
        e.lead_count = ((segment_core leads defs N).1.m "exec").length) ∧
      (segment_core leads defs N).1.writes.getLast? =
        some ("exec", (segment_core leads defs N).1.m "exec")) := by
  obtain ⟨pre, post, hsplit⟩ := List.append_of_mem hmem
  obtain ⟨hpre, hpost⟩ := nodup_split_id defs pre post seg hnodup hsplit
  have hc1 : (segment_core leads defs N).1 =
      finalizeExec (segLoop N defs ⟨[], assignAll leads defs, [], 0⟩) := rfl
  have hc2 : (segment_core leads defs N).2.segments =
      (finalizeExec (segLoop N defs ⟨[], assignAll leads defs, [], 0⟩)).filtered := rfl
  constructor
  · intro hk
    have hres := core_kept N (assignAll leads defs) pre post seg hx hpost hk
    rw [← hsplit] at hres
    exact ⟨by rw [hc2]; exact hres.1, by rw [hc1]; exact hres.2⟩
  · intro h1 h2
    have hres := core_merged N (assignAll leads defs) pre post seg hx hpre hpost h1 h2
    rw [← hsplit] at hres
    obtain ⟨ha, hb, hc, hd, he⟩ := hres
    refine ⟨?_, ?_, ?_, ?_, ?_⟩
    · rw [hc2]
      exact ha
    · rw [hc1]
      exact hb
    · rw [hc1]
      exact hc
    · rw [hc2, hc1]
      exact hd
    · rw [hc1]
      exact he

/-- Witness for C4_size_floor_policy on the claim's concrete scenario:
manifest exec=[CEO], operations=[COO], minimum size 10, five COO leads and no
CEO lead.  The merged branch applies: no operations entry or file, all five
leads in the exec partition, exec lead_count 5. -/
theorem C4_witness :
    ((∀ e ∈ (segment_core (List.replicate 5 cooLead) twoSegDefs 10).2.segments,
        e.segment_id ≠ opsSegDef.segment_id) ∧
      fileContent (segment_core (List.replicate 5 cooLead) twoSegDefs 10).1.writes
        opsSegDef.segment_id = none ∧
      (∀ l ∈ assignAll (List.replicate 5 cooLead) twoSegDefs opsSegDef.segment_id,
        l ∈ (segment_core (List.replicate 5 cooLead) twoSegDefs 10).1.m "exec") ∧
      (∃ e ∈ (segment_core (List.replicate 5 cooLead) twoSegDefs 10).2.segments,
        e.segment_id = "exec" ∧
        e.lead_count =
          ((segment_core (List.replicate 5 cooLead) twoSegDefs 10).1.m "exec").length) ∧
      (segment_core (List.replicate 5 cooLead) twoSegDefs 10).1.writes.getLast? =
        some ("exec", (segment_core (List.replicate 5 cooLead) twoSegDefs 10).1.m "exec")) ∧
    ((segment_core (List.replicate 5 cooLead) twoSegDefs 10).1.m "exec").length = 5 ∧
    (segment_core (List.replicate 5 cooLead) twoSegDefs 10).2.segments.map
      (fun e => (e.segment_id, e.lead_count)) = [("exec", 5)] :=
  ⟨(C4_size_floor_policy (List.replicate 5 cooLead) twoSegDefs 10 (by decide) opsSegDef
      (by decide) (by decide)).2 (by decide) (by decide),
   by decide, by decide⟩

/-! Title-coverage lemmas for the manifest invariant. -/

theorem stepSeg_titles (N : Nat) (st : AState) (seg : SegDef) :
    List.Sublist ((stepSeg N st seg).filtered.map (fun e => e.job_titles))
      (st.filtered.map (fun e => e.job_titles) ++ [seg.job_titles]) := by
  unfold stepSeg
  dsimp only
  split
  · rw [List.map_append]
    exact List.Sublist.refl _
  · split
    · split
      · rw [addToFirstExec_titles]
        exact List.sublist_append_left _ _
      · rw [List.map_append]
        exact List.Sublist.refl _
    · exact List.sublist_append_left _ _

theorem segLoop_titles (N : Nat) :
    ∀ (defs : List SegDef) (st : AState),
      List.Sublist ((segLoop N defs st).filtered.map (fun e => e.job_titles))
        (st.filtered.map (fun e => e.job_titles) ++ defs.map (fun s => s.job_titles))
  | [], st => by simp [segLoop]
  | s :: rest, st => by
      have ih := segLoop_titles N rest (stepSeg N st s)
      have hstep := stepSeg_titles N st s
      have comp := ih.trans
        (hstep.append (List.Sublist.refl (rest.map fun q => q.job_titles)))
      rw [List.append_assoc] at comp
      show List.Sublist ((segLoop N rest (stepSeg N st s)).filtered.map
        (fun e => e.job_titles)) _
      simpa using comp

theorem finalizeExec_titles (st : AState) :
    (finalizeExec st).filtered.map (fun e => e.job_titles) =
      st.filtered.map (fun e => e.job_titles) := by
  unfold finalizeExec
  split
  · exact setFirstExecCount_titles _ _
  · rfl

theorem sublist_flatten {α : Type} {l1 l2 : List (List α)} (h : List.Sublist l1 l2) :
    List.Sublist l1.flatten l2.flatten := by
  induction h with
  | slnil => exact List.Sublist.refl _
  | cons a h ih =>
      rw [List.flatten_cons]
      exact ih.trans (List.sublist_append_right _ _)
  | cons₂ a h ih =>
      rw [List.flatten_cons, List.flatten_cons]
      exact ih.append_left a

theorem countP_zero_of_not_mem_flatten {t : String} :
    ∀ (L : List (List String)), t ∉ L.flatten →
      L.countP (fun l => l.contains t) = 0
  | [], _ => rfl
  | l :: rest, h => by
      rw [List.flatten_cons] at h
      simp only [List.mem_append, not_or] at h
      rw [List.countP_cons_of_neg _ _ (by simpa using h.1),
        countP_zero_of_not_mem_flatten rest h.2]

theorem countP_flatten_nodup (L : List (List String)) (hn : L.flatten.Nodup)
    (t : String) (ht : t ∈ L.flatten) :
    L.countP (fun l => l.contains t) = 1 := by
  induction L with
  | nil => simp at ht
  | cons l rest ih =>
      rw [List.flatten_cons] at hn ht
      rw [List.nodup_append] at hn
      obtain ⟨h1, h2, h3⟩ := hn
      rcases List.mem_append.mp ht with h | h
      · rw [List.countP_cons_of_pos _ _ (by simpa using h),
          countP_zero_of_not_mem_flatten rest (h3 h)]
      · rw [List.countP_cons_of_neg _ _ (by simpa using fun hc => h3 hc h)]
        exact ih h2 h

theorem core_kept_mem (N : Nat) (m0 : String → List Lead) (pre post : List SegDef)
    (seg : SegDef) (hx : seg.segment_id ≠ "exec")
    (hk : N ≤ (m0 seg.segment_id).length) :
    toOut seg (m0 seg.segment_id).length ∈
      (finalizeExec (segLoop N (pre ++ seg :: post) ⟨[], m0, [], 0⟩)).filtered := by
  have hsplit2 : segLoop N (pre ++ seg :: post) ⟨[], m0, [], 0⟩ =
      segLoop N post (stepSeg N (segLoop N pre ⟨[], m0, [], 0⟩) seg) := by
    rw [segLoop_append]
    rfl
  have hm1 : (segLoop N pre ⟨[], m0, [], 0⟩).m seg.segment_id = m0 seg.segment_id :=
    segLoop_m_ne N pre _ seg.segment_id hx
  have hk1 : N ≤ ((segLoop N pre ⟨[], m0, [], 0⟩).m seg.segment_id).length := by
    rw [hm1]
    exact hk
  have hstep := stepSeg_kept N (segLoop N pre ⟨[], m0, [], 0⟩) seg hk1
  have htid : (toOut seg (m0 seg.segment_id).length).segment_id ≠ "exec" := hx
  have hmem2 : toOut seg (m0 seg.segment_id).length ∈
      (stepSeg N (segLoop N pre ⟨[], m0, [], 0⟩) seg).filtered := by
    rw [hstep]
    dsimp only
    rw [hm1]
    exact List.mem_append_right _ (List.mem_singleton.mpr rfl)
  rw [hsplit2]
  exact finalizeExec_mem _ _ (segLoop_filtered_mem N post _ _ hmem2 htid) htid

/-- C3 counterexample: with the exec=[CEO], operations=[COO] manifest,
minimum size 10, ten CEO leads and five COO leads, the operations segment is
merged into the already-kept exec entry, whose job_titles stay [CEO]: the
title COO is assigned to five leads and is in the input manifest, yet no
final manifest segment contains it (it is orphaned). -/
theorem C3_counterexample :
    ("COO" ∈ twoSegDefs.flatMap (fun s => s.job_titles)) ∧
    dictGet (titlePairs twoSegDefs) "coo" = some "operations" ∧
    (assignAll (List.replicate 10 ceoLead ++ List.replicate 5 cooLead) twoSegDefs
      "operations").length = 5 ∧
    (∀ s ∈ (segment_core (List.replicate 10 ceoLead ++ List.replicate 5 cooLead)
        twoSegDefs 10).2.segments, "COO" ∉ s.job_titles) := by
  decide

/-- C3 (amended): when the input manifest's job-title lists are disjoint,
every title present in the final manifest appears in exactly one of its
segments; and every title of a segment whose realized lead count reaches the
minimum is covered by some final segment.  Full coverage of all assigned
titles fails: a title whose segment is merged away (into an already-existing
exec entry) or realizes zero leads can be orphaned, absent from every final
segment. -/
theorem C3_title_invariant (leads : List Lead) (defs : List SegDef) (N : Nat)
    (hnodup : (defs.map (fun s => s.job_titles)).flatten.Nodup) :
    (∀ t ∈ ((segment_core leads defs N).2.segments.map (fun s => s.job_titles)).flatten,
      (segment_core leads defs N).2.segments.countP
        (fun s => s.job_titles.contains t) = 1) ∧
    (∀ seg ∈ defs, seg.segment_id ≠ "exec" →
      N ≤ (assignAll leads defs seg.segment_id).length →
      ∀ t ∈ seg.job_titles,
        ∃ s ∈ (segment_core leads defs N).2.segments, t ∈ s.job_titles) := by
  have hc2 : (segment_core leads defs N).2.segments =
      (finalizeExec (segLoop N defs ⟨[], assignAll leads defs, [], 0⟩)).filtered := rfl
  constructor
  · intro t ht
    have hsub : List.Sublist
        ((segment_core leads defs N).2.segments.map (fun s => s.job_titles))
        (defs.map (fun s => s.job_titles)) := by
      rw [hc2, finalizeExec_titles]
      have hst := segLoop_titles N defs ⟨[], assignAll leads defs, [], 0⟩
      simpa using hst
    have hnd : ((segment_core leads defs N).2.segments.map
        (fun s => s.job_titles)).flatten.Nodup :=
      List.Nodup.sublist (sublist_flatten hsub) hnodup
    have hcount := countP_flatten_nodup _ hnd t ht
    rw [List.countP_map] at hcount
    exact hcount
  · intro seg hmem hx hk t ht
    obtain ⟨pre, post, hsplit⟩ := List.append_of_mem hmem
    have hres := core_kept_mem N (assignAll leads defs) pre post seg hx hk
    rw [← hsplit] at hres
    refine ⟨toOut seg (assignAll leads defs seg.segment_id).length, ?_, ?_⟩
    · rw [hc2]
      exact hres
    · simpa [toOut] using ht

/-- Witness for C3_title_invariant on the counterexample scenario: the title
CEO appears in exactly one final segment. -/
theorem C3_witness :
    (segment_core (List.replicate 10 ceoLead ++ List.replicate 5 cooLead) twoSegDefs
      10).2.segments.countP (fun s => s.job_titles.contains "CEO") = 1 :=
  (C3_title_invariant (List.replicate 10 ceoLead ++ List.replicate 5 cooLead) twoSegDefs 10
    (by decide)).1 "CEO" (by decide)

/-- C9: for every list of title strings, every input title lands in exactly
one segment of the fallback classifier's manifest: the title is classified by
the ordered exec, operations, marketing, sales, technical keyword tests with
the remainder going to general, and the general bucket is folded into the
exec segment's title list exactly when it holds fewer than 10 titles and an
exec bucket exists — in every case each title belongs to one and only one
emitted segment. -/
theorem C9_fallback_coverage (job_titles : List String) (t : String)
    (ht : t ∈ job_titles) :
    ∃ s, s ∈ fallback_segmentation job_titles ∧ t ∈ s.job_titles ∧
      ∀ q, q ∈ fallback_segmentation job_titles → t ∈ q.job_titles → q = s := by
  have hmemF : ∀ (b : Bucket) (x : String),
      x ∈ job_titles.filter (fun q => classifyTitle q == b) ↔
        (x ∈ job_titles ∧ classifyTitle x = b) := by
    intro b x
    simp [List.mem_filter]
  have hin : ∀ b : Bucket, classifyTitle t = b →
      t ∈ job_titles.filter (fun q => classifyTitle q == b) :=
    fun b hb => (hmemF b t).mpr ⟨ht, hb⟩
  have hclass : ∀ (b : Bucket) (x : String),
      x ∈ job_titles.filter (fun q => classifyTitle q == b) → classifyTitle x = b :=
    fun b x h => ((hmemF b x).mp h).2
  have hneB : ∀ (l : List String) (x : String), x ∈ l → (!l.isEmpty) = true := by
    intro l x h
    cases l
    · simp at h
    · rfl
  have memCond : ∀ (c : Bool) (x q : SegDef),
      (q ∈ if c = true then [x] else ([] : List SegDef)) ↔ (c = true ∧ q = x) := by
    intro c x q
    cases c <;> simp
  unfold fallback_segmentation
  dsimp only
  set exL := job_titles.filter (fun q => classifyTitle q == Bucket.exec) with hexL
  set opL := job_titles.filter (fun q => classifyTitle q == Bucket.operations) with hopL
  set mkL := job_titles.filter (fun q => classifyTitle q == Bucket.marketing) with hmkL
  set saL := job_titles.filter (fun q => classifyTitle q == Bucket.sales) with hsaL
  set teL := job_titles.filter (fun q => classifyTitle q == Bucket.technical) with hteL
  set geL := job_titles.filter (fun q => classifyTitle q == Bucket.general) with hgeL
  by_cases hg : (!geL.isEmpty) = true
  · rw [if_pos hg]
    by_cases hm : (geL.length < 10 && !exL.isEmpty) = true
    · -- general folded into the exec segment
      have hex : (!exL.isEmpty) = true := by
        cases hcase : (!exL.isEmpty) with
        | true => rfl
        | false =>
            rw [hcase, Bool.and_false] at hm
            exact Bool.noConfusion hm
      rw [if_pos hm, if_pos hex]
      simp only [List.append_assoc, List.singleton_append, List.modifyHead, execSegOf]
      cases hb : classifyTitle t with
      | exec =>
          refine ⟨_, List.mem_cons_self _ _, ?_, ?_⟩
          · exact List.mem_append_left _ (hin .exec hb)
          · intro q hq hqt
            rcases List.mem_cons.mp hq with h | h
            · rw [h]
            · simp only [List.append_eq, List.mem_append, memCond] at h
              rcases h with ⟨c, rfl⟩ | ⟨c, rfl⟩ | ⟨c, rfl⟩ | ⟨c, rfl⟩
              · exact absurd (hclass .operations t hqt) (by simp [hb])
              · exact absurd (hclass .marketing t hqt) (by simp [hb])
              · exact absurd (hclass .sales t hqt) (by simp [hb])
              · exact absurd (hclass .technical t hqt) (by simp [hb])
      | general =>
          refine ⟨_, List.mem_cons_self _ _, ?_, ?_⟩
          · exact List.mem_append_right _ (hin .general hb)
          · intro q hq hqt
            rcases List.mem_cons.mp hq with h | h
            · rw [h]
            · simp only [List.append_eq, List.mem_append, memCond] at h
              rcases h with ⟨c, rfl⟩ | ⟨c, rfl⟩ | ⟨c, rfl⟩ | ⟨c, rfl⟩
              · exact absurd (hclass .operations t hqt) (by simp [hb])
              · exact absurd (hclass .marketing t hqt) (by simp [hb])
              · exact absurd (hclass .sales t hqt) (by simp [hb])
              · exact absurd (hclass .technical t hqt) (by simp [hb])
      | operations =>
          refine ⟨opsSegOf opL, ?_, hin .operations hb, ?_⟩
          · apply List.mem_cons_of_mem
            apply List.mem_append_left
            rw [if_pos (hneB _ _ (hin .operations hb))]
            exact List.mem_singleton.mpr rfl
          · intro q hq hqt
            rcases List.mem_cons.mp hq with h | h
            · subst h
              have hqt2 : t ∈ exL ++ geL := hqt
              rcases List.mem_append.mp hqt2 with h2 | h2
              · exact absurd (hclass .exec t h2) (by simp [hb])
              · exact absurd (hclass .general t h2) (by simp [hb])
            · simp only [List.append_eq, List.mem_append, memCond] at h
              rcases h with ⟨c, rfl⟩ | ⟨c, rfl⟩ | ⟨c, rfl⟩ | ⟨c, rfl⟩
              · rfl
              · exact absurd (hclass .marketing t hqt) (by simp [hb])
              · exact absurd (hclass .sales t hqt) (by simp [hb])
              · exact absurd (hclass .technical t hqt) (by simp [hb])
      | marketing =>
          refine ⟨mktSegOf mkL, ?_, hin .marketing hb, ?_⟩
          · apply List.mem_cons_of_mem
            apply List.mem_append_right
            apply List.mem_append_left
            rw [if_pos (hneB _ _ (hin .marketing hb))]
            exact List.mem_singleton.mpr rfl
          · intro q hq hqt
            rcases List.mem_cons.mp hq with h | h
            · subst h
              have hqt2 : t ∈ exL ++ geL := hqt
              rcases List.mem_append.mp hqt2 with h2 | h2
              · exact absurd (hclass .exec t h2) (by simp [hb])
              · exact absurd (hclass .general t h2) (by simp [hb])
            · simp only [List.append_eq, List.mem_append, memCond] at h
              rcases h with ⟨c, rfl⟩ | ⟨c, rfl⟩ | ⟨c, rfl⟩ | ⟨c, rfl⟩
              · exact absurd (hclass .operations t hqt) (by simp [hb])
              · rfl
              · exact absurd (hclass .sales t hqt) (by simp [hb])
              · exact absurd (hclass .technical t hqt) (by simp [hb])
      | sales =>
          refine ⟨salesSegOf saL, ?_, hin .sales hb, ?_⟩
          · apply List.mem_cons_of_mem
            apply List.mem_append_right
            apply List.mem_append_right
            apply List.mem_append_left
            rw [if_pos (hneB _ _ (hin .sales hb))]
            exact List.mem_singleton.mpr rfl
          · intro q hq hqt
            rcases List.mem_cons.mp hq with h | h
            · subst h
              have hqt2 : t ∈ exL ++ geL := hqt
              rcases List.mem_append.mp hqt2 with h2 | h2
              · exact absurd (hclass .exec t h2) (by simp [hb])
              · exact absurd (hclass .general t h2) (by simp [hb])
            · simp only [List.append_eq, List.mem_append, memCond] at h
              rcases h with ⟨c, rfl⟩ | ⟨c, rfl⟩ | ⟨c, rfl⟩ | ⟨c, rfl⟩
              · exact absurd (hclass .operations t hqt) (by simp [hb])
              · exact absurd (hclass .marketing t hqt) (by simp [hb])
              · rfl
              · exact absurd (hclass .technical t hqt) (by simp [hb])
      | technical =>
          refine ⟨techSegOf teL, ?_, hin .technical hb, ?_⟩
          · apply List.mem_cons_of_mem
            apply List.mem_append_right
            apply List.mem_append_right
            apply List.mem_append_right
            rw [if_pos (hneB _ _ (hin .technical hb))]
            exact List.mem_singleton.mpr rfl
          · intro q hq hqt
            rcases List.mem_cons.mp hq with h | h
            · subst h
              have hqt2 : t ∈ exL ++ geL := hqt
              rcases List.mem_append.mp hqt2 with h2 | h2
              · exact absurd (hclass .exec t h2) (by simp [hb])
              · exact absurd (hclass .general t h2) (by simp [hb])
            · simp only [List.append_eq, List.mem_append, memCond] at h
              rcases h with ⟨c, rfl⟩ | ⟨c, rfl⟩ | ⟨c, rfl⟩ | ⟨c, rfl⟩
              · exact absurd (hclass .operations t hqt) (by simp [hb])
              · exact absurd (hclass .marketing t hqt) (by simp [hb])
              · exact absurd (hclass .sales t hqt) (by simp [hb])
              · rfl
    · -- standalone general segment
      rw [if_neg hm]
      simp only [List.append_assoc]
      cases hb : classifyTitle t with
      | exec =>
          refine ⟨execSegOf exL, ?_, hin .exec hb, ?_⟩
          · apply List.mem_append_left
            rw [if_pos (hneB _ _ (hin .exec hb))]
            exact List.mem_singleton.mpr rfl
          · intro q hq hqt
            simp only [List.mem_append, memCond, List.mem_singleton] at hq
            rcases hq with ⟨c, rfl⟩ | ⟨c, rfl⟩ | ⟨c, rfl⟩ | ⟨c, rfl⟩ | ⟨c, rfl⟩ | rfl
            · rfl
            · exact absurd (hclass .operations t hqt) (by simp [hb])
            · exact absurd (hclass .marketing t hqt) (by simp [hb])
            · exact absurd (hclass .sales t hqt) (by simp [hb])
            · exact absurd (hclass .technical t hqt) (by simp [hb])
            · exact absurd (hclass .general t hqt) (by simp [hb])
      | operations =>
          refine ⟨opsSegOf opL, ?_, hin .operations hb, ?_⟩
          · apply List.mem_append_right
            apply List.mem_append_left
            rw [if_pos (hneB _ _ (hin .operations hb))]
            exact List.mem_singleton.mpr rfl
          · intro q hq hqt
            simp only [List.mem_append, memCond, List.mem_singleton] at hq
            rcases hq with ⟨c, rfl⟩ | ⟨c, rfl⟩ | ⟨c, rfl⟩ | ⟨c, rfl⟩ | ⟨c, rfl⟩ | rfl
            · exact absurd (hclass .exec t hqt) (by simp [hb])
            · rfl
            · exact absurd (hclass .marketing t hqt) (by simp [hb])
            · exact absurd (hclass .sales t hqt) (by simp [hb])
            · exact absurd (hclass .technical t hqt) (by simp [hb])
            · exact absurd (hclass .general t hqt) (by simp [hb])
      | marketing =>
          refine ⟨mktSegOf mkL, ?_, hin .marketing hb, ?_⟩
          · apply List.mem_append_right
            apply List.mem_append_right
            apply List.mem_append_left
            rw [if_pos (hneB _ _ (hin .marketing hb))]
            exact List.mem_singleton.mpr rfl
          · intro q hq hqt
            simp only [List.mem_append, memCond, List.mem_singleton] at hq
            rcases hq with ⟨c, rfl⟩ | ⟨c, rfl⟩ | ⟨c, rfl⟩ | ⟨c, rfl⟩ | ⟨c, rfl⟩ | rfl
            · exact absurd (hclass .exec t hqt) (by simp [hb])
            · exact absurd (hclass .operations t hqt) (by simp [hb])
            · rfl
            · exact absurd (hclass .sales t hqt) (by simp [hb])
            · exact absurd (hclass .technical t hqt) (by simp [hb])
            · exact absurd (hclass .general t hqt) (by simp [hb])
      | sales =>
          refine ⟨salesSegOf saL, ?_, hin .sales hb, ?_⟩
          · apply List.mem_append_right
            apply List.mem_append_right
            apply List.mem_append_right
            apply List.mem_append_left
            rw [if_pos (hneB _ _ (hin .sales hb))]
            exact List.mem_singleton.mpr rfl
          · intro q hq hqt
            simp only [List.mem_append, memCond, List.mem_singleton] at hq
            rcases hq with ⟨c, rfl⟩ | ⟨c, rfl⟩ | ⟨c, rfl⟩ | ⟨c, rfl⟩ | ⟨c, rfl⟩ | rfl
            · exact absurd (hclass .exec t hqt) (by simp [hb])
            · exact absurd (hclass .operations t hqt) (by simp [hb])
            · exact absurd (hclass .marketing t hqt) (by simp [hb])
            · rfl
            · exact absurd (hclass .technical t hqt) (by simp [hb])
            · exact absurd (hclass .general t hqt) (by simp [hb])
      | technical =>
          refine ⟨techSegOf teL, ?_, hin .technical hb, ?_⟩
          · apply List.mem_append_right
            apply List.mem_append_right
            apply List.mem_append_right
            apply List.mem_append_right
            apply List.mem_append_left
            rw [if_pos (hneB _ _ (hin .technical hb))]
            exact List.mem_singleton.mpr rfl
          · intro q hq hqt
            simp only [List.mem_append, memCond, List.mem_singleton] at hq
            rcases hq with ⟨c, rfl⟩ | ⟨c, rfl⟩ | ⟨c, rfl⟩ | ⟨c, rfl⟩ | ⟨c, rfl⟩ | rfl
            · exact absurd (hclass .exec t hqt) (by simp [hb])
            · exact absurd (hclass .operations t hqt) (by simp [hb])
            · exact absurd (hclass .marketing t hqt) (by simp [hb])
            · exact absurd (hclass .sales t hqt) (by simp [hb])
            · rfl
            · exact absurd (hclass .general t hqt) (by simp [hb])
      | general =>
          refine ⟨genSegOf geL, ?_, hin .general hb, ?_⟩
          · apply List.mem_append_right
            apply List.mem_append_right
            apply List.mem_append_right
            apply List.mem_append_right
            apply List.mem_append_right
            exact List.mem_singleton.mpr rfl
          · intro q hq hqt
            simp only [List.mem_append, memCond, List.mem_singleton] at hq
            rcases hq with ⟨c, rfl⟩ | ⟨c, rfl⟩ | ⟨c, rfl⟩ | ⟨c, rfl⟩ | ⟨c, rfl⟩ | rfl
            · exact absurd (hclass .exec t hqt) (by simp [hb])
            · exact absurd (hclass .operations t hqt) (by simp [hb])
            · exact absurd (hclass .marketing t hqt) (by simp [hb])
            · exact absurd (hclass .sales t hqt) (by simp [hb])
            · exact absurd (hclass .technical t hqt) (by simp [hb])
            · rfl
  · -- empty general bucket
    rw [if_neg hg]
    simp only [List.append_assoc]
    cases hb : classifyTitle t with
    | general => exact absurd (hneB _ _ (hin .general hb)) hg
    | exec =>
        refine ⟨execSegOf exL, ?_, hin .exec hb, ?_⟩
        · apply List.mem_append_left
          rw [if_pos (hneB _ _ (hin .exec hb))]
          exact List.mem_singleton.mpr rfl
        · intro q hq hqt
          simp only [List.mem_append, memCond] at hq
          rcases hq with ⟨c, rfl⟩ | ⟨c, rfl⟩ | ⟨c, rfl⟩ | ⟨c, rfl⟩ | ⟨c, rfl⟩
          · rfl
          · exact absurd (hclass .operations t hqt) (by simp [hb])
          · exact absurd (hclass .marketing t hqt) (by simp [hb])
          · exact absurd (hclass .sales t hqt) (by simp [hb])
          · exact absurd (hclass .technical t hqt) (by simp [hb])
    | operations =>
        refine ⟨opsSegOf opL, ?_, hin .operations hb, ?_⟩
        · apply List.mem_append_right
          apply List.mem_append_left
          rw [if_pos (hneB _ _ (hin .operations hb))]
          exact List.mem_singleton.mpr rfl
        · intro q hq hqt
          simp only [List.mem_append, memCond] at hq
          rcases hq with ⟨c, rfl⟩ | ⟨c, rfl⟩ | ⟨c, rfl⟩ | ⟨c, rfl⟩ | ⟨c, rfl⟩
          · exact absurd (hclass .exec t hqt) (by simp [hb])
          · rfl
          · exact absurd (hclass .marketing t hqt) (by simp [hb])
          · exact absurd (hclass .sales t hqt) (by simp [hb])
          · exact absurd (hclass .technical t hqt) (by simp [hb])
    | marketing =>
        refine ⟨mktSegOf mkL, ?_, hin .marketing hb, ?_⟩
        · apply List.mem_append_right
          apply List.mem_append_right
          apply List.mem_append_left
          rw [if_pos (hneB _ _ (hin .marketing hb))]
          exact List.mem_singleton.mpr rfl
        · intro q hq hqt
          simp only [List.mem_append, memCond] at hq
          rcases hq with ⟨c, rfl⟩ | ⟨c, rfl⟩ | ⟨c, rfl⟩ | ⟨c, rfl⟩ | ⟨c, rfl⟩
          · exact absurd (hclass .exec t hqt) (by simp [hb])
          · exact absurd (hclass .operations t hqt) (by simp [hb])
          · rfl
          · exact absurd (hclass .sales t hqt) (by simp [hb])
          · exact absurd (hclass .technical t hqt) (by simp [hb])
    | sales =>
        refine ⟨salesSegOf saL, ?_, hin .sales hb, ?_⟩
        · apply List.mem_append_right
          apply List.mem_append_right
          apply List.mem_append_right
          apply List.mem_append_left
          rw [if_pos (hneB _ _ (hin .sales hb))]
          exact List.mem_singleton.mpr rfl
        · intro q hq hqt
          simp only [List.mem_append, memCond] at hq
          rcases hq with ⟨c, rfl⟩ | ⟨c, rfl⟩ | ⟨c, rfl⟩ | ⟨c, rfl⟩ | ⟨c, rfl⟩
          · exact absurd (hclass .exec t hqt) (by simp [hb])
          · exact absurd (hclass .operations t hqt) (by simp [hb])
          · exact absurd (hclass .marketing t hqt) (by simp [hb])
          · rfl
          · exact absurd (hclass .technical t hqt) (by simp [hb])
    | technical =>
        refine ⟨techSegOf teL, ?_, hin .technical hb, ?_⟩
        · apply List.mem_append_right
          apply List.mem_append_right
          apply List.mem_append_right
          apply List.mem_append_right
          rw [if_pos (hneB _ _ (hin .technical hb))]
          exact List.mem_singleton.mpr rfl
        · intro q hq hqt
          simp only [List.mem_append, memCond] at hq
          rcases hq with ⟨c, rfl⟩ | ⟨c, rfl⟩ | ⟨c, rfl⟩ | ⟨c, rfl⟩ | ⟨c, rfl⟩
          · exact absurd (hclass .exec t hqt) (by simp [hb])
          · exact absurd (hclass .operations t hqt) (by simp [hb])
          · exact absurd (hclass .marketing t hqt) (by simp [hb])
          · exact absurd (hclass .sales t hqt) (by simp [hb])
          · rfl

/-- Witness for C9_fallback_coverage: the unmatched title lands in exactly
one segment (the small general bucket is merged into exec here). -/
theorem C9_witness :
    ∃ s, s ∈ fallback_segmentation ["CEO", "COO", "Head of Weird"] ∧
      "Head of Weird" ∈ s.job_titles ∧
      ∀ q, q ∈ fallback_segmentation ["CEO", "COO", "Head of Weird"] →
        "Head of Weird" ∈ q.job_titles → q = s :=
  C9_fallback_coverage ["CEO", "COO", "Head of Weird"] "Head of Weird" (by decide)

end LeadAgent
